import Mathlib

/-!
# Verification of the chaotic-canvas evolutionary image engine

This development gives a shallow embedding, in Lean 4, of the genetic
algorithm at the core of the `chaotic-canvas` repository (Go), and settles a
list of claims about it.

Modelling conventions, used throughout:

* Go `float64` values are modelled by `ℝ` (exact arithmetic; rounding and
  overflow are idealised away).  One component, the adaptive mutation
  controller, is additionally modelled over a small IEEE-style type with
  `NaN` and signed infinities (namespace `FloatModel`) because the claim
  about it speaks about `NaN` and division by zero.
* Go `int` values that are only ever non-negative sizes/indices are
  modelled by `ℕ`; parameters that the code compares against `0` are
  modelled by `ℤ`.
* `rand.Float64()` / `rand.Intn(n)` draws are modelled by explicit oracle
  parameters.  An `Intn(n)` draw takes a raw natural `d` from the oracle
  and yields `d % n`; Go panics when `n ≤ 0`, which is modelled by
  returning `none`.  All panics are modelled by `Option`: a function that
  can panic returns `none` exactly on the inputs where the Go code panics.
* An `image.RGBA` pixel buffer is modelled by its width, height and a
  total function from flat byte index to byte value (`Pix`); the stride of
  a freshly allocated RGBA image of width `w` is `4*w`.  Indices outside
  the allocated range read as `0`, matching the zero-initialised backing
  array of `image.NewRGBA`.
* `sort.Slice(s, by fitness)` is modelled by `List.insertionSort`.  Go's
  sort is unstable, so only properties that are invariant under the choice
  of sorting permutation (lengths, sortedness, the multiset of fitness
  values, prefixes of the sorted fitness list) are stated about it.
* The polygon rasteriser (`github.com/fogleman/gg`) is an external
  dependency of the repository, not part of it; it is modelled by an
  abstract total `render` function passed as a parameter.
* Goroutine fan-out with a barrier (fitness bands, blend strips, pair
  tasks per batch) is deterministic in the Go code up to the oracle draws
  each task makes: every task writes to its own pre-assigned slot.  It is
  therefore modelled by ordinary (sequential) folds over the same index
  ranges, with per-task oracles.
-/

/-! ## The `mathutil` / `utils` helper package -/

namespace mathutil

/-- `mathutil.Min` (generic over Go's `Number`; modelled over any linear order). -/
def Min {α : Type _} [LinearOrder α] (a b : α) : α :=
  if a < b then a else b

/-- `mathutil.Max`. -/
def Max {α : Type _} [LinearOrder α] (a b : α) : α :=
  if a > b then a else b

/-- `mathutil.Clamp value min max`: the Go code tests `value < min` first,
then `value > max`. -/
def Clamp {α : Type _} [LinearOrder α] (value lo hi : α) : α :=
  if value < lo then lo
  else if value > hi then hi
  else value

/-- `mathutil.Abs`. -/
def Abs {α : Type _} [LinearOrder α] [Neg α] [Zero α] (value : α) : α :=
  if value < 0 then -value else value

/-- The division loop of `FloorPowerOfTen` for values `≥ 10`:
`for value >= 10 { value /= 10; result *= 10 }`. -/
def floorPowLoop (value result : ℕ) : ℕ :=
  if 10 ≤ value then floorPowLoop (value / 10) (result * 10) else result
termination_by value
decreasing_by exact Nat.div_lt_self (by omega) (by omega)

/-- `mathutil.FloorPowerOfTen` : the largest power of ten `≤ n` (1 for `n ≤ 0`).
The Go fast paths for `n < 10^6` agree with the loop, and are folded into it. -/
def FloorPowerOfTen (n : ℤ) : ℕ :=
  if n ≤ 0 then 1
  else floorPowLoop n.toNat 1

/-- `mathutil.RandomBetween a b` : swaps if `a > b`, then `rand.Intn (b-a+1) + a`.
The raw oracle draw `d` stands for the `Intn` result (reduced mod the range).
Both arguments are non-negative at every call site modelled here. -/
def RandomBetween (a b : ℕ) (d : ℕ) : ℕ :=
  if a > b then d % (a - b + 1) + b
  else d % (b - a + 1) + a

end mathutil

/-! ## Pixel buffers and individuals (`genetic/individual.go`) -/

namespace genetic

/-- An `image.RGBA` buffer: width, height, and the flat `Pix` byte array as a
total function (indices beyond `4*w*h` read `0`, the zero-initialised
backing store). `Stride = 4*w`. -/
structure RGBAImage where
  w : ℕ
  h : ℕ
  Pix : ℕ → ℕ

/-- The stride of an RGBA image allocated by `image.NewRGBA`. -/
def RGBAImage.Stride (img : RGBAImage) : ℕ := 4 * img.w

/-- The number of allocated bytes of the buffer. -/
def RGBAImage.size (img : RGBAImage) : ℕ := 4 * img.w * img.h

/-- `Individual`: one genome—a pixel buffer plus its scalar fitness.
Fitness is a real; the `math.Inf(1)` placeholder a freshly allocated child
carries until `CalculateFitness` runs is modelled by `0` (it is overwritten
before any read on every path of the engine). -/
structure Individual where
  Fitness : ℝ
  Image : RGBAImage

instance : Inhabited RGBAImage := ⟨⟨0, 0, fun _ => 0⟩⟩

instance : Inhabited Individual := ⟨⟨0, default⟩⟩

/-- `Individual.CreateCopy`: a deep copy.  The fresh buffer has the same
dimensions; `draw.Draw` copies exactly the `4*w*h` allocated bytes, so
out-of-range indices of the copy read `0`. -/
def Individual.CreateCopy (ind : Individual) : Individual :=
  { Fitness := ind.Fitness
    Image := { w := ind.Image.w, h := ind.Image.h
               Pix := fun i => if i < ind.Image.size then ind.Image.Pix i else 0 } }

/-! ### Fitness (`CalculateFitness`, `calculateRegionFitness`) -/

/-- The Euclidean colour distance at flat pixel base index `idx` between two
buffers: `math.Sqrt(rDiff²+gDiff²+bDiff²+aDiff²)` where each channel
difference is `float64(int(c1) - int(c2))`. -/
noncomputable def pixelDist (img1 img2 : RGBAImage) (idx : ℕ) : ℝ :=
  Real.sqrt (((img1.Pix idx : ℝ) - (img2.Pix idx : ℝ)) ^ 2 +
    ((img1.Pix (idx + 1) : ℝ) - (img2.Pix (idx + 1) : ℝ)) ^ 2 +
    ((img1.Pix (idx + 2) : ℝ) - (img2.Pix (idx + 2) : ℝ)) ^ 2 +
    ((img1.Pix (idx + 3) : ℝ) - (img2.Pix (idx + 3) : ℝ)) ^ 2)

/-- `calculateRegionFitness img1 img2 startY endY`: the summed pixel distance
over rows `startY ≤ y < endY` (`i := y*Stride`, `idx := i + x*4`, width from
`img1`). -/
noncomputable def calculateRegionFitness (img1 img2 : RGBAImage) (startY endY : ℕ) : ℝ :=
  ∑ y ∈ Finset.Ico startY endY, ∑ x ∈ Finset.range img1.w,
    pixelDist img1 img2 (y * img1.Stride + x * 4)

/-- `Individual.CalculateFitness`, parallel by row chunks: `numGoroutines`
chunks of `rowsPerGoroutine = height / numGoroutines` rows, the last chunk
extended to `height`; the partial sums are added and divided by
`width*height`.  Returns the fitness value the Go method stores into
`ind.Fitness`. -/
noncomputable def calculateFitnessValue (ind : Individual) (targetImage : RGBAImage)
    (numGoroutines : ℕ) : ℝ :=
  let width := targetImage.w
  let height := targetImage.h
  let rowsPerGoroutine := height / numGoroutines
  let totalDifference := ∑ i ∈ Finset.range numGoroutines,
    calculateRegionFitness ind.Image targetImage (i * rowsPerGoroutine)
      (if i = numGoroutines - 1 then height else (i + 1) * rowsPerGoroutine)
  totalDifference / (width * height : ℕ)

/-- The state-passing form: Go's `ind.CalculateFitness(target)` mutates
`ind.Fitness` in place. -/
noncomputable def Individual.CalculateFitness (ind : Individual) (targetImage : RGBAImage)
    (numGoroutines : ℕ) : Individual :=
  { ind with Fitness := calculateFitnessValue ind targetImage numGoroutines }

/-- The specification-side fitness: the sum over all pixels of the Euclidean
distance in (R,G,B,A) space, divided by `width*height`.  (Written from the
spec's words, to be compared with the chunked implementation.) -/
noncomputable def specFitness (img target : RGBAImage) : ℝ :=
  (∑ y ∈ Finset.range target.h, ∑ x ∈ Finset.range target.w,
    pixelDist img target (y * (4 * target.w) + x * 4)) / (target.w * target.h : ℕ)

end genetic

namespace genetic

/-- The row chunks `[i*r, (i+1)*r)` (last chunk extended to `h`) of
`CalculateFitness` partition `[0, h)`: summing any function over the chunks
equals summing it over all rows. -/
lemma sum_row_chunks (f : ℕ → ℝ) (g h : ℕ) (hg : 1 ≤ g) :
    (∑ i ∈ Finset.range g, ∑ y ∈ Finset.Ico (i * (h / g))
      (if i = g - 1 then h else (i + 1) * (h / g)), f y) =
    ∑ y ∈ Finset.range h, f y := by
  obtain ⟨g', rfl⟩ : ∃ g', g = g' + 1 := ⟨g - 1, by omega⟩
  have hle : ∀ i : ℕ, i ≤ g' + 1 → i * (h / (g' + 1)) ≤ h := by
    intro i hi
    calc i * (h / (g' + 1)) ≤ (g' + 1) * (h / (g' + 1)) :=
          Nat.mul_le_mul_right _ hi
    _ ≤ h := by rw [Nat.mul_comm]; exact Nat.div_mul_le_self h (g' + 1)
  rw [Finset.sum_range_succ]
  have hlast : (if g' = g' + 1 - 1 then h else (g' + 1) * (h / (g' + 1))) = h := by
    simp
  rw [hlast]
  have hbody : ∀ i ∈ Finset.range g',
      (∑ y ∈ Finset.Ico (i * (h / (g' + 1)))
        (if i = g' + 1 - 1 then h else (i + 1) * (h / (g' + 1))), f y) =
      (∑ y ∈ Finset.range ((i + 1) * (h / (g' + 1))), f y) -
        ∑ y ∈ Finset.range (i * (h / (g' + 1))), f y := by
    intro i hi
    have hi' : i < g' := Finset.mem_range.mp hi
    rw [if_neg (by omega)]
    exact Finset.sum_Ico_eq_sub f (Nat.mul_le_mul_right _ (by omega))
  rw [Finset.sum_congr rfl hbody,
    Finset.sum_range_sub (fun i => ∑ y ∈ Finset.range (i * (h / (g' + 1))), f y) g',
    Finset.sum_Ico_eq_sub f (hle g' (by omega))]
  simp

/-- C3.  With equal-dimension buffers and at least one worker, the chunked
parallel fitness equals the specification formula
`(Σ pixels, Euclidean RGBA distance) / (width*height)`; it is non-negative;
and an image scored against an identical copy of itself scores exactly `0`. -/
theorem CalculateFitness_correct (ind : Individual) (target : RGBAImage)
    (g : ℕ) (hg : 1 ≤ g)
    (hw : ind.Image.w = target.w) (_hh : ind.Image.h = target.h) :
    (ind.CalculateFitness target g).Fitness = specFitness ind.Image target ∧
    0 ≤ (ind.CalculateFitness target g).Fitness ∧
    (ind.Image = target → (ind.CalculateFitness target g).Fitness = 0) := by
  have hpix : ∀ idx, 0 ≤ pixelDist ind.Image target idx := fun idx => Real.sqrt_nonneg _
  have hchunks :
      calculateFitnessValue ind target g =
        (∑ y ∈ Finset.range target.h, ∑ x ∈ Finset.range target.w,
          pixelDist ind.Image target (y * (4 * target.w) + x * 4)) /
          (target.w * target.h : ℕ) := by
    unfold calculateFitnessValue calculateRegionFitness
    rw [show ind.Image.Stride = 4 * target.w by
          simp [RGBAImage.Stride, hw]]
    simp only [hw]
    rw [sum_row_chunks (fun y => ∑ x ∈ Finset.range target.w,
      pixelDist ind.Image target (y * (4 * target.w) + x * 4)) g target.h hg]
  have hind : (ind.CalculateFitness target g).Fitness = calculateFitnessValue ind target g := rfl
  refine ⟨by rw [hind, hchunks]; rfl, ?_, ?_⟩
  · rw [hind, hchunks]
    apply div_nonneg
    · exact Finset.sum_nonneg fun y _ => Finset.sum_nonneg fun x _ => hpix _
    · positivity
  · intro hid
    rw [hind, hchunks]
    have hzero : ∀ idx, pixelDist ind.Image target idx = 0 := by
      intro idx
      rw [hid]
      unfold pixelDist
      simp
    simp [hzero]

/-- Witness for C3 at a concrete input: a 1×1 all-zero image against itself. -/
theorem CalculateFitness_correct_witness :
    ((⟨0, ⟨1, 1, fun _ => 0⟩⟩ : Individual).CalculateFitness ⟨1, 1, fun _ => 0⟩ 1).Fitness
      = specFitness (⟨1, 1, fun _ => 0⟩ : RGBAImage) ⟨1, 1, fun _ => 0⟩ ∧
    0 ≤ ((⟨0, ⟨1, 1, fun _ => 0⟩⟩ : Individual).CalculateFitness ⟨1, 1, fun _ => 0⟩ 1).Fitness ∧
    ((⟨1, 1, fun _ => 0⟩ : RGBAImage) = ⟨1, 1, fun _ => 0⟩ →
      ((⟨0, ⟨1, 1, fun _ => 0⟩⟩ : Individual).CalculateFitness ⟨1, 1, fun _ => 0⟩ 1).Fitness = 0) :=
  CalculateFitness_correct ⟨0, ⟨1, 1, fun _ => 0⟩⟩ ⟨1, 1, fun _ => 0⟩ 1
    (le_refl 1) rfl rfl

end genetic

namespace genetic

/-! ## Randomness oracles

Each `rand` call a function makes is fed from an explicit oracle value.
`goIntn n d` models `rand.Intn(n)` given the raw draw `d`: the result is
`d % n`, and the call panics (`none`) when `n = 0` (in Go, when `n ≤ 0`). -/

/-- `rand.Intn` with an oracle draw: `none` models the panic on `n ≤ 0`. -/
def goIntn (n : ℕ) (d : ℕ) : Option ℕ :=
  if n = 0 then none else some (d % n)

/-! ## Crossover (`genetic/crossover.go`) -/

/-- The per-strategy random draws a single `Crossover` call can consume. -/
structure CrossRand where
  /-- `rand.Float64()` choosing the strategy band. -/
  strategy : ℝ
  /-- blend: one `rand.Float64()` per parallel row strip. -/
  alphas : ℕ → ℝ
  /-- point: the orientation draw (`rand.Float64() <= 0.5` ⇒ horizontal). -/
  isHoriz : ℝ
  /-- point: the raw draw behind `rand.Intn(dimension-1)`. -/
  split : ℕ
  /-- gaussian: the `rand.NormFloat64()` sample (scaled by 0.1 in the code). -/
  noise : ℝ
  /-- patch: one `rand.Float64()` per 8×8 tile, indexed by (tileRow, tileCol). -/
  patch : ℕ → ℕ → ℝ

/-- The pixel content of a blend-crossover child.  Strip `k` of the
`numGoroutines` parallel strips covers rows `[k*rpg, (k+1)*rpg)` with
`rpg = height/numGoroutines`; each strip draws one `blendAlpha`; inside a
strip every channel byte is `uint8(p1*(1-α) + p2*α)` for child 1 and the
complementary mix for child 2.  Rows `≥ numGoroutines*rpg` are never
written and keep the zero initialisation of `image.NewRGBA`. -/
noncomputable def blendChildPix (first : Bool) (numGoroutines : ℕ) (alphas : ℕ → ℝ)
    (p1 p2 : RGBAImage) (i : ℕ) : ℕ :=
  let rpg := p1.h / numGoroutines
  let y := i / p1.Stride
  if y < numGoroutines * rpg ∧ i < p1.size then
    let a := alphas (y / rpg)
    if first then ⌊(p1.Pix i : ℝ) * (1 - a) + (p2.Pix i : ℝ) * a⌋₊
    else ⌊(p1.Pix i : ℝ) * a + (p2.Pix i : ℝ) * (1 - a)⌋₊
  else 0

/-- `blendCrossover`: both children are fresh buffers with `parent1`'s
bounds; fitness starts at the unevaluated placeholder. -/
noncomputable def blendCrossover (numGoroutines : ℕ) (alphas : ℕ → ℝ)
    (parent1 parent2 : Individual) : Individual × Individual :=
  (⟨0, ⟨parent1.Image.w, parent1.Image.h,
        blendChildPix true numGoroutines alphas parent1.Image parent2.Image⟩⟩,
   ⟨0, ⟨parent1.Image.w, parent1.Image.h,
        blendChildPix false numGoroutines alphas parent1.Image parent2.Image⟩⟩)

/-- Child pixels of a horizontal point split at row `split`: bytes below
`split*stride` from the first source, the rest of the buffer from the
second. -/
def horizSplitPix (top bot : RGBAImage) (split : ℕ) (i : ℕ) : ℕ :=
  if i < split * top.Stride then top.Pix i
  else if i < top.size then bot.Pix i
  else 0

/-- Child pixels of a vertical point split at column `split`: per row,
bytes `[0, split*4)` from the first source and `[split*4, stride)` from the
second. -/
def vertSplitPix (left right : RGBAImage) (split : ℕ) (i : ℕ) : ℕ :=
  if i / left.Stride < left.h then
    (if i % left.Stride < split * 4 then left.Pix i else right.Pix i)
  else 0

/-- `crossoverPoint`: orientation by one draw; split point
`rand.Intn(dimension-1)+1` (panics—`none`—when the dimension is `≤ 1`);
children recombine the parents' halves.  Children are fresh buffers with
`parent1`'s bounds. -/
noncomputable def crossoverPoint (isHorizDraw : ℝ) (splitDraw : ℕ)
    (parent1 parent2 : Individual) : Option (Individual × Individual) :=
  let b := parent1.Image
  if isHorizDraw ≤ 0.5 then
    match goIntn (b.h - 1) splitDraw with
    | none => none
    | some d =>
      let split := d + 1
      some (⟨0, ⟨b.w, b.h, horizSplitPix parent1.Image parent2.Image split⟩⟩,
            ⟨0, ⟨b.w, b.h, horizSplitPix parent2.Image parent1.Image split⟩⟩)
  else
    match goIntn (b.w - 1) splitDraw with
    | none => none
    | some d =>
      let split := d + 1
      some (⟨0, ⟨b.w, b.h, vertSplitPix parent1.Image parent2.Image split⟩⟩,
            ⟨0, ⟨b.w, b.h, vertSplitPix parent2.Image parent1.Image split⟩⟩)

/-- Child pixels of the gaussian-perturbation crossover: every allocated
byte is `uint8(min(255, max(0, (p1+p2)/2 ± noise)))`. -/
noncomputable def gaussChildPix (plus : Bool) (noise : ℝ) (p1 p2 : RGBAImage) (i : ℕ) : ℕ :=
  if i < p1.size then
    let mean := ((p1.Pix i : ℝ) + (p2.Pix i : ℝ)) / 2
    if plus then ⌊min 255 (max 0 (mean + noise))⌋₊
    else ⌊min 255 (max 0 (mean - noise))⌋₊
  else 0

/-- `gaussianPerturbationCrossover`: one noise sample
`rand.NormFloat64() * 0.1` per image; children are fresh buffers with
`parent1`'s bounds. -/
noncomputable def gaussianPerturbationCrossover (noiseDraw : ℝ)
    (parent1 parent2 : Individual) : Individual × Individual :=
  let noise := noiseDraw * 0.1
  (⟨0, ⟨parent1.Image.w, parent1.Image.h,
        gaussChildPix true noise parent1.Image parent2.Image⟩⟩,
   ⟨0, ⟨parent1.Image.w, parent1.Image.h,
        gaussChildPix false noise parent1.Image parent2.Image⟩⟩)

/-- The pixels of a patch-crossover child: start from a deep copy of `own`
and, for every 8×8 tile whose draw is `< 0.3`, take the tile's pixels from
`other` instead (`idx = ((y+dy)*Dx + (x+dx))*4`, which equals the flat byte
index since `stride = 4*Dx`). -/
noncomputable def patchChildPix (draws : ℕ → ℕ → ℝ) (own other : RGBAImage) (i : ℕ) : ℕ :=
  let y := i / own.Stride
  let x := i % own.Stride / 4
  if i < own.size ∧ draws (y / 8) (x / 8) < 0.3 then other.Pix i
  else if i < own.size then own.Pix i
  else 0

/-- `patchCrossover`: children start as deep copies of the respective
parents (`CreateCopy`, so fitness is inherited), then complementary 8×8
tiles are swapped with probability 0.3 per tile. -/
noncomputable def patchCrossover (draws : ℕ → ℕ → ℝ)
    (parent1 parent2 : Individual) : Individual × Individual :=
  (⟨parent1.Fitness, ⟨parent1.Image.w, parent1.Image.h,
      patchChildPix draws parent1.Image parent2.Image⟩⟩,
   ⟨parent2.Fitness, ⟨parent2.Image.w, parent2.Image.h,
      patchChildPix draws parent2.Image parent1.Image⟩⟩)

/-- `GeneticAlgorithm.Crossover`: one `rand.Float64()` partitions `[0,1)`
into the bands blend 30% / point 40% / gaussian 20% / patch 10%. -/
noncomputable def Crossover (gomaxprocs : ℕ) (cr : CrossRand)
    (parent1 parent2 : Individual) : Option (Individual × Individual) :=
  if cr.strategy < 0.3 then some (blendCrossover gomaxprocs cr.alphas parent1 parent2)
  else if cr.strategy < 0.7 then crossoverPoint cr.isHoriz cr.split parent1 parent2
  else if cr.strategy < 0.9 then some (gaussianPerturbationCrossover cr.noise parent1 parent2)
  else some (patchCrossover cr.patch parent1 parent2)

end genetic

namespace genetic

/-- Helper: a byte index inside row `y` decomposes back to `y`. -/
lemma row_of_index (w y x j : ℕ) (hx : x < w) (hj : j < 4) :
    (y * (4 * w) + x * 4 + j) / (4 * w) = y := by
  have hw : 0 < w := Nat.pos_of_ne_zero (by omega)
  have hrem : x * 4 + j < 4 * w := by omega
  rw [Nat.add_assoc, Nat.mul_comm y (4 * w), Nat.mul_add_div (by omega)]
  rw [Nat.div_eq_of_lt hrem]
  omega

/-- C8 (amended).  Blend crossover with `g` parallel strips: inside strip
`k` (rows `[k*(h/g), (k+1)*(h/g))`) both children carry the per-channel
blend of the parents with that strip's `α`, truncated to the byte range;
rows at or beyond `g*(h/g)` — which exist exactly when `g` does not divide
`h` — are never assigned and keep the zero initialisation. -/
theorem blendCrossover_strip_blends (p1 p2 : Individual) (g : ℕ) (alphas : ℕ → ℝ)
    (k y x j : ℕ) (hk : k < g)
    (hy1 : k * (p1.Image.h / g) ≤ y) (hy2 : y < (k + 1) * (p1.Image.h / g))
    (hx : x < p1.Image.w) (hj : j < 4) :
    ((blendCrossover g alphas p1 p2).1.Image.Pix (y * p1.Image.Stride + x * 4 + j)
      = ⌊(p1.Image.Pix (y * p1.Image.Stride + x * 4 + j) : ℝ) * (1 - alphas k)
          + (p2.Image.Pix (y * p1.Image.Stride + x * 4 + j) : ℝ) * alphas k⌋₊ ∧
     (blendCrossover g alphas p1 p2).2.Image.Pix (y * p1.Image.Stride + x * 4 + j)
      = ⌊(p1.Image.Pix (y * p1.Image.Stride + x * 4 + j) : ℝ) * alphas k
          + (p2.Image.Pix (y * p1.Image.Stride + x * 4 + j) : ℝ) * (1 - alphas k)⌋₊) ∧
    ∀ i : ℕ, g * (p1.Image.h / g) ≤ i / p1.Image.Stride →
      (blendCrossover g alphas p1 p2).1.Image.Pix i = 0 ∧
      (blendCrossover g alphas p1 p2).2.Image.Pix i = 0 := by
  have hrpg : 0 < p1.Image.h / g := by
    rcases Nat.eq_zero_or_pos (p1.Image.h / g) with h0 | h0
    · rw [h0, Nat.mul_zero] at hy2; omega
    · exact h0
  have hy : y < p1.Image.h := by
    have h1 : (k + 1) * (p1.Image.h / g) ≤ g * (p1.Image.h / g) :=
      Nat.mul_le_mul_right _ (by omega)
    have h2 : g * (p1.Image.h / g) ≤ p1.Image.h := by
      rw [Nat.mul_comm]; exact Nat.div_mul_le_self _ _
    omega
  have hidx : (y * p1.Image.Stride + x * 4 + j) / p1.Image.Stride = y := by
    unfold RGBAImage.Stride
    exact row_of_index _ y x j hx hj
  have hsize : y * p1.Image.Stride + x * 4 + j < p1.Image.size := by
    unfold RGBAImage.Stride RGBAImage.size
    have : y * (4 * p1.Image.w) + x * 4 + j < (y + 1) * (4 * p1.Image.w) := by
      rw [Nat.add_mul, Nat.one_mul]; omega
    have h2 : (y + 1) * (4 * p1.Image.w) ≤ p1.Image.h * (4 * p1.Image.w) :=
      Nat.mul_le_mul_right _ (by omega)
    calc y * (4 * p1.Image.w) + x * 4 + j < (y + 1) * (4 * p1.Image.w) := this
    _ ≤ p1.Image.h * (4 * p1.Image.w) := h2
    _ = 4 * p1.Image.w * p1.Image.h := by ring
  have hcov : (y * p1.Image.Stride + x * 4 + j) / p1.Image.Stride
      < g * (p1.Image.h / g) := by
    rw [hidx]
    have h1 : (k + 1) * (p1.Image.h / g) ≤ g * (p1.Image.h / g) :=
      Nat.mul_le_mul_right _ (by omega)
    omega
  have hstrip : y / (p1.Image.h / g) = k := Nat.div_eq_of_lt_le hy1 hy2
  constructor
  · constructor
    · show blendChildPix true g alphas p1.Image p2.Image _ = _
      unfold blendChildPix
      rw [if_pos ⟨hcov, hsize⟩, if_pos rfl]
      rw [hidx, hstrip]
    · show blendChildPix false g alphas p1.Image p2.Image _ = _
      unfold blendChildPix
      rw [if_pos ⟨hcov, hsize⟩]
      rw [hidx, hstrip]
      rfl
  · intro i hi
    constructor
    · show blendChildPix true g alphas p1.Image p2.Image i = 0
      unfold blendChildPix
      rw [if_neg (by omega)]
    · show blendChildPix false g alphas p1.Image p2.Image i = 0
      unfold blendChildPix
      rw [if_neg (by omega)]

end genetic

namespace genetic

/-- Witness for C8 at a concrete input: one strip over a 1×2 image whose
pixels are all `5`, blend factor `0`. -/
theorem blendCrossover_strip_blends_witness :
    (0 : ℕ) < 1 ∧
    (blendCrossover 1 (fun _ => (0 : ℝ)) ⟨0, ⟨1, 2, fun _ => 5⟩⟩
        ⟨0, ⟨1, 2, fun _ => 5⟩⟩).1.Image.Pix 0
      = ⌊((5 : ℕ) : ℝ) * (1 - 0) + ((5 : ℕ) : ℝ) * 0⌋₊ :=
  ⟨by decide,
   (blendCrossover_strip_blends ⟨0, ⟨1, 2, fun _ => 5⟩⟩ ⟨0, ⟨1, 2, fun _ => 5⟩⟩ 1
      (fun _ => (0 : ℝ)) 0 0 0 0 (by decide) (by decide) (by decide)
      (by decide) (by decide)).1.1⟩

/-- C8 counterexample.  With 2 goroutines and a 1-row image, the strip size
`height/numGoroutines` is `0`, so no row is ever written: the first byte of
child 1 is `0`, whereas the claimed blend of two parents whose bytes are all
`7` is `7` for every blend factor (shown here for the drawn `α = 1/2`). -/
theorem blendCrossover_misses_rows :
    (blendCrossover 2 (fun _ => (1 : ℝ) / 2) ⟨0, ⟨1, 1, fun _ => 7⟩⟩
        ⟨0, ⟨1, 1, fun _ => 7⟩⟩).1.Image.Pix 0 = 0 ∧
    ⌊((7 : ℕ) : ℝ) * (1 - 1 / 2) + ((7 : ℕ) : ℝ) * (1 / 2)⌋₊ = 7 := by
  constructor
  · show blendChildPix true 2 (fun _ => (1 : ℝ) / 2) ⟨1, 1, fun _ => 7⟩ ⟨1, 1, fun _ => 7⟩ 0 = 0
    unfold blendChildPix
    norm_num
  · rw [show ((7 : ℕ) : ℝ) * (1 - 1 / 2) + ((7 : ℕ) : ℝ) * (1 / 2) = ((7 : ℕ) : ℝ) by
      push_cast; ring]
    exact Nat.floor_natCast 7

/-- C9 (amended).  Blend, gaussian-perturbation and patch-swap crossover
always return children with the parents' dimensions; point-split does so
whenever both dimensions are at least 2 (all split draws, hence split
coordinates 1 through dimension−1, included).  For a width or height of 1
the point-split panics (`rand.Intn(0)`), modelled by `none`—that case is
the subject of the counterexample. -/
theorem crossover_preserves_dimensions (p1 p2 : Individual)
    (hw : p2.Image.w = p1.Image.w) (_hh : p2.Image.h = p1.Image.h)
    (g : ℕ) (alphas : ℕ → ℝ) (noiseDraw : ℝ) (patchDraws : ℕ → ℕ → ℝ)
    (isHorizDraw : ℝ) (splitDraw : ℕ) :
    ((blendCrossover g alphas p1 p2).1.Image.w = p1.Image.w ∧
     (blendCrossover g alphas p1 p2).1.Image.h = p1.Image.h ∧
     (blendCrossover g alphas p1 p2).2.Image.w = p1.Image.w ∧
     (blendCrossover g alphas p1 p2).2.Image.h = p1.Image.h) ∧
    ((gaussianPerturbationCrossover noiseDraw p1 p2).1.Image.w = p1.Image.w ∧
     (gaussianPerturbationCrossover noiseDraw p1 p2).1.Image.h = p1.Image.h ∧
     (gaussianPerturbationCrossover noiseDraw p1 p2).2.Image.w = p1.Image.w ∧
     (gaussianPerturbationCrossover noiseDraw p1 p2).2.Image.h = p1.Image.h) ∧
    ((patchCrossover patchDraws p1 p2).1.Image.w = p1.Image.w ∧
     (patchCrossover patchDraws p1 p2).1.Image.h = p1.Image.h ∧
     (patchCrossover patchDraws p1 p2).2.Image.w = p1.Image.w ∧
     (patchCrossover patchDraws p1 p2).2.Image.h = p1.Image.h) ∧
    (2 ≤ p1.Image.w → 2 ≤ p1.Image.h →
      ∃ c1 c2, crossoverPoint isHorizDraw splitDraw p1 p2 = some (c1, c2) ∧
        c1.Image.w = p1.Image.w ∧ c1.Image.h = p1.Image.h ∧
        c2.Image.w = p1.Image.w ∧ c2.Image.h = p1.Image.h) := by
  refine ⟨⟨rfl, rfl, rfl, rfl⟩, ⟨rfl, rfl, rfl, rfl⟩, ⟨rfl, rfl, hw, _hh⟩, ?_⟩
  intro hw2 hh2
  unfold crossoverPoint goIntn
  by_cases hdir : isHorizDraw ≤ 0.5
  · rw [if_pos hdir, if_neg (by omega)]
    exact ⟨_, _, rfl, rfl, rfl, rfl, rfl⟩
  · rw [if_neg hdir, if_neg (by omega)]
    exact ⟨_, _, rfl, rfl, rfl, rfl, rfl⟩

/-- Witness for C9 at a concrete input: 2×2 parents; the point-split branch
succeeds and preserves dimensions. -/
theorem crossover_preserves_dimensions_witness :
    ((⟨0, ⟨2, 2, fun _ => 1⟩⟩ : Individual).Image.w
        = (⟨0, ⟨2, 2, fun _ => 3⟩⟩ : Individual).Image.w) ∧
    ∃ c1 c2, crossoverPoint 0 0 ⟨0, ⟨2, 2, fun _ => 3⟩⟩ ⟨0, ⟨2, 2, fun _ => 1⟩⟩
        = some (c1, c2) ∧
      c1.Image.w = (⟨0, ⟨2, 2, fun _ => 3⟩⟩ : Individual).Image.w ∧
      c1.Image.h = (⟨0, ⟨2, 2, fun _ => 3⟩⟩ : Individual).Image.h ∧
      c2.Image.w = (⟨0, ⟨2, 2, fun _ => 3⟩⟩ : Individual).Image.w ∧
      c2.Image.h = (⟨0, ⟨2, 2, fun _ => 3⟩⟩ : Individual).Image.h :=
  ⟨rfl,
   (crossover_preserves_dimensions ⟨0, ⟨2, 2, fun _ => 3⟩⟩ ⟨0, ⟨2, 2, fun _ => 1⟩⟩
      rfl rfl 1 (fun _ => 0) 0 (fun _ _ => 0) 0 0).2.2.2 (by decide) (by decide)⟩

/-- C9 counterexample.  On 1×1 parents the point-split strategy draws
`rand.Intn(0)` and panics: no children are returned at all, so the claim
"each of the four strategies returns two children …" fails as stated. -/
theorem crossoverPoint_degenerate_none :
    crossoverPoint 0 0 ⟨0, ⟨1, 1, fun _ => 0⟩⟩ ⟨0, ⟨1, 1, fun _ => 0⟩⟩ = none := by
  unfold crossoverPoint goIntn
  norm_num

end genetic

namespace genetic

/-! ## A heap model for the crossover module (frame properties)

To state that crossover never writes into a parent's buffer, the pixel
buffers are placed in an explicit store: addresses below `next` are
allocated, `image.NewRGBA` / `CreateCopy` allocate at `next`.  The pixel
contents written into the fresh child buffers are exactly the pure
per-pixel functions defined above, reading the parents' buffers. -/

/-- A store of pixel buffers: `next` is the next fresh address. -/
structure Heap where
  next : ℕ
  store : ℕ → RGBAImage

/-- Allocate a buffer at the next fresh address. -/
def Heap.alloc (hp : Heap) (img : RGBAImage) : Heap × ℕ :=
  ({ next := hp.next + 1, store := Function.update hp.store hp.next img }, hp.next)

/-- `blendCrossover` over the heap: reads the parents at `a1`, `a2` and
writes only the two freshly allocated child buffers. -/
noncomputable def blendCrossoverH (g : ℕ) (alphas : ℕ → ℝ) (hp : Heap)
    (a1 a2 : ℕ) : Heap × ℕ × ℕ :=
  let p1 := hp.store a1
  let p2 := hp.store a2
  let r1 := hp.alloc ⟨p1.w, p1.h, blendChildPix true g alphas p1 p2⟩
  let r2 := r1.1.alloc ⟨p1.w, p1.h, blendChildPix false g alphas p1 p2⟩
  (r2.1, r1.2, r2.2)

/-- `gaussianPerturbationCrossover` over the heap. -/
noncomputable def gaussianPerturbationCrossoverH (noiseDraw : ℝ) (hp : Heap)
    (a1 a2 : ℕ) : Heap × ℕ × ℕ :=
  let p1 := hp.store a1
  let p2 := hp.store a2
  let noise := noiseDraw * 0.1
  let r1 := hp.alloc ⟨p1.w, p1.h, gaussChildPix true noise p1 p2⟩
  let r2 := r1.1.alloc ⟨p1.w, p1.h, gaussChildPix false noise p1 p2⟩
  (r2.1, r1.2, r2.2)

/-- `patchCrossover` over the heap: the children are `CreateCopy`-fresh
buffers whose tiles are then swapped in place (collapsed here into the
allocated contents `patchChildPix`); the parents are only read. -/
noncomputable def patchCrossoverH (draws : ℕ → ℕ → ℝ) (hp : Heap)
    (a1 a2 : ℕ) : Heap × ℕ × ℕ :=
  let p1 := hp.store a1
  let p2 := hp.store a2
  let r1 := hp.alloc ⟨p1.w, p1.h, patchChildPix draws p1 p2⟩
  let r2 := r1.1.alloc ⟨p2.w, p2.h, patchChildPix draws p2 p1⟩
  (r2.1, r1.2, r2.2)

/-- `crossoverPoint` over the heap (still `none` on a 1-pixel dimension). -/
noncomputable def crossoverPointH (isHorizDraw : ℝ) (splitDraw : ℕ) (hp : Heap)
    (a1 a2 : ℕ) : Option (Heap × ℕ × ℕ) :=
  let p1 := hp.store a1
  let p2 := hp.store a2
  if isHorizDraw ≤ 0.5 then
    match goIntn (p1.h - 1) splitDraw with
    | none => none
    | some d =>
      let split := d + 1
      let r1 := hp.alloc ⟨p1.w, p1.h, horizSplitPix p1 p2 split⟩
      let r2 := r1.1.alloc ⟨p1.w, p1.h, horizSplitPix p2 p1 split⟩
      some (r2.1, r1.2, r2.2)
  else
    match goIntn (p1.w - 1) splitDraw with
    | none => none
    | some d =>
      let split := d + 1
      let r1 := hp.alloc ⟨p1.w, p1.h, vertSplitPix p1 p2 split⟩
      let r2 := r1.1.alloc ⟨p1.w, p1.h, vertSplitPix p2 p1 split⟩
      some (r2.1, r1.2, r2.2)

/-- Two consecutive allocations leave every previously allocated address
untouched. -/
lemma Heap.alloc_alloc_frame (hp : Heap) (img1 img2 : RGBAImage) (a : ℕ)
    (ha : a < hp.next) :
    ((hp.alloc img1).1.alloc img2).1.store a = hp.store a := by
  unfold Heap.alloc
  simp only
  rw [Function.update_noteq (by omega), Function.update_noteq (by omega)]

/-- C10.  Crossover never modifies its inputs: for every pair of allocated
parent buffers, each of the four strategies leaves both parents' pixel
buffers unchanged in the store and returns children at fresh addresses,
distinct from both parents' addresses.  (Parents' `Fitness` fields are
values outside the store and are read, never written, by every strategy.) -/
theorem crossover_frame (g : ℕ) (alphas : ℕ → ℝ) (noiseDraw : ℝ)
    (patchDraws : ℕ → ℕ → ℝ) (isHorizDraw : ℝ) (splitDraw : ℕ)
    (hp : Heap) (a1 a2 : ℕ) (h1 : a1 < hp.next) (h2 : a2 < hp.next) :
    ((blendCrossoverH g alphas hp a1 a2).1.store a1 = hp.store a1 ∧
     (blendCrossoverH g alphas hp a1 a2).1.store a2 = hp.store a2 ∧
     (blendCrossoverH g alphas hp a1 a2).2.1 ≠ a1 ∧
     (blendCrossoverH g alphas hp a1 a2).2.1 ≠ a2 ∧
     (blendCrossoverH g alphas hp a1 a2).2.2 ≠ a1 ∧
     (blendCrossoverH g alphas hp a1 a2).2.2 ≠ a2) ∧
    ((gaussianPerturbationCrossoverH noiseDraw hp a1 a2).1.store a1 = hp.store a1 ∧
     (gaussianPerturbationCrossoverH noiseDraw hp a1 a2).1.store a2 = hp.store a2 ∧
     (gaussianPerturbationCrossoverH noiseDraw hp a1 a2).2.1 ≠ a1 ∧
     (gaussianPerturbationCrossoverH noiseDraw hp a1 a2).2.1 ≠ a2 ∧
     (gaussianPerturbationCrossoverH noiseDraw hp a1 a2).2.2 ≠ a1 ∧
     (gaussianPerturbationCrossoverH noiseDraw hp a1 a2).2.2 ≠ a2) ∧
    ((patchCrossoverH patchDraws hp a1 a2).1.store a1 = hp.store a1 ∧
     (patchCrossoverH patchDraws hp a1 a2).1.store a2 = hp.store a2 ∧
     (patchCrossoverH patchDraws hp a1 a2).2.1 ≠ a1 ∧
     (patchCrossoverH patchDraws hp a1 a2).2.1 ≠ a2 ∧
     (patchCrossoverH patchDraws hp a1 a2).2.2 ≠ a1 ∧
     (patchCrossoverH patchDraws hp a1 a2).2.2 ≠ a2) ∧
    (∀ hp' c1 c2, crossoverPointH isHorizDraw splitDraw hp a1 a2 = some (hp', c1, c2) →
      hp'.store a1 = hp.store a1 ∧ hp'.store a2 = hp.store a2 ∧
      c1 ≠ a1 ∧ c1 ≠ a2 ∧ c2 ≠ a1 ∧ c2 ≠ a2) := by
  refine ⟨⟨Heap.alloc_alloc_frame hp _ _ a1 h1, Heap.alloc_alloc_frame hp _ _ a2 h2,
      by show hp.next ≠ a1; omega, by show hp.next ≠ a2; omega,
      by show hp.next + 1 ≠ a1; omega, by show hp.next + 1 ≠ a2; omega⟩,
    ⟨Heap.alloc_alloc_frame hp _ _ a1 h1, Heap.alloc_alloc_frame hp _ _ a2 h2,
      by show hp.next ≠ a1; omega, by show hp.next ≠ a2; omega,
      by show hp.next + 1 ≠ a1; omega, by show hp.next + 1 ≠ a2; omega⟩,
    ⟨Heap.alloc_alloc_frame hp _ _ a1 h1, Heap.alloc_alloc_frame hp _ _ a2 h2,
      by show hp.next ≠ a1; omega, by show hp.next ≠ a2; omega,
      by show hp.next + 1 ≠ a1; omega, by show hp.next + 1 ≠ a2; omega⟩, ?_⟩
  intro hp' c1 c2 hsome
  unfold crossoverPointH at hsome
  by_cases hdir : isHorizDraw ≤ 0.5 <;>
    simp only [hdir, if_pos, if_neg, goIntn] at hsome
  · by_cases hh : (hp.store a1).h - 1 = 0
    · simp [hh] at hsome
    · simp only [hh, if_neg, if_false] at hsome
      obtain ⟨rfl, rfl, rfl⟩ : hp' = _ ∧ c1 = hp.next ∧ c2 = hp.next + 1 := by
        simpa [eq_comm] using hsome
      exact ⟨Heap.alloc_alloc_frame hp _ _ a1 h1, Heap.alloc_alloc_frame hp _ _ a2 h2,
        by omega, by omega, by omega, by omega⟩
  · by_cases hh : (hp.store a1).w - 1 = 0
    · simp [hh] at hsome
    · simp only [hh, if_neg, if_false] at hsome
      obtain ⟨rfl, rfl, rfl⟩ : hp' = _ ∧ c1 = hp.next ∧ c2 = hp.next + 1 := by
        simpa [eq_comm] using hsome
      exact ⟨Heap.alloc_alloc_frame hp _ _ a1 h1, Heap.alloc_alloc_frame hp _ _ a2 h2,
        by omega, by omega, by omega, by omega⟩

end genetic

namespace genetic

/-- Witness for C10 at a concrete heap: two 1×1 parents at addresses 0, 1
of a heap with `next = 2`; blend crossover leaves address 0 unchanged. -/
theorem crossover_frame_witness :
    (0 : ℕ) < 2 ∧ (1 : ℕ) < 2 ∧
    (blendCrossoverH 1 (fun _ => (0 : ℝ)) ⟨2, fun _ => ⟨1, 1, fun _ => 0⟩⟩ 0 1).1.store 0
      = (⟨2, fun _ => ⟨1, 1, fun _ => 0⟩⟩ : Heap).store 0 :=
  ⟨by decide, by decide,
   (crossover_frame 1 (fun _ => (0 : ℝ)) 0 (fun _ _ => 0) 0 0
      ⟨2, fun _ => ⟨1, 1, fun _ => 0⟩⟩ 0 1 (by decide) (by decide)).1.1⟩

end genetic

/-- Any property preserved by each fold step holds of the fold result. -/
lemma foldl_preserve {α β : Type _} (P : α → Prop) (f : α → β → α)
    (hf : ∀ a b, P a → P (f a b)) :
    ∀ (l : List β) (a : α), P a → P (l.foldl f a) := by
  intro l
  induction l with
  | nil => intro a ha; exact ha
  | cons b bs ih => intro a ha; exact ih _ (hf a b ha)

namespace genetic

/-! ## Selection (`genetic/selection.go`) -/

/-- One uniform draw from the population: `population[rand.Intn(len(population))]`
(the head is the `getD` default; the index is always in range). -/
def tournPick (pop : List Individual) (p : Individual) (d : ℕ) : Individual :=
  pop.getD (d % pop.length) p

/-- One mini-tournament: a first draw, then `tournamentSize-1` further
participants, keeping the lowest fitness. -/
noncomputable def tournRound (pop : List Individual) (p : Individual)
    (tournamentSize : ℕ) (draws : ℕ → ℕ) : Individual :=
  (List.range (tournamentSize - 1)).foldl
    (fun tournamentBest j =>
      if (tournPick pop p (draws (j + 1))).Fitness < tournamentBest.Fitness then
        tournPick pop p (draws (j + 1))
      else tournamentBest)
    (tournPick pop p (draws 0))

/-- `TournamentSelect`: `numTournaments = 4` mini-tournaments, overall winner
by lowest fitness (the first round initialises the `nil` best).  Panics
(`none`) on an empty population (`rand.Intn(0)`).  `draws i j` is the raw
draw of participant `j` of mini-tournament `i`. -/
noncomputable def TournamentSelect (population : List Individual) (tournamentSize : ℕ)
    (draws : ℕ → ℕ → ℕ) : Option Individual :=
  match population with
  | [] => none
  | p :: ps =>
    some ((List.range 3).foldl
      (fun best i =>
        if (tournRound (p :: ps) p tournamentSize (draws (i + 1))).Fitness < best.Fitness then
          tournRound (p :: ps) p tournamentSize (draws (i + 1))
        else best)
      (tournRound (p :: ps) p tournamentSize (draws 0)))

/-- A pick is a member of the population. -/
lemma tournPick_mem (pop : List Individual) (p : Individual) (hp : p ∈ pop) (d : ℕ) :
    tournPick pop p d ∈ pop := by
  unfold tournPick
  rcases Nat.lt_or_ge (d % pop.length) pop.length with hlt | hge
  · rw [List.getD_eq_getElem _ _ hlt]
    exact List.getElem_mem _
  · rw [List.getD_eq_default _ _ hge]
    exact hp

/-- A mini-tournament winner is a member of the population. -/
lemma tournRound_mem (pop : List Individual) (p : Individual) (hp : p ∈ pop)
    (t : ℕ) (draws : ℕ → ℕ) : tournRound pop p t draws ∈ pop := by
  unfold tournRound
  refine foldl_preserve (· ∈ pop) _ ?_ _ _ (tournPick_mem pop p hp _)
  intro a b ha
  by_cases hc : (tournPick pop p (draws (b + 1))).Fitness < a.Fitness
  · rw [if_pos hc]; exact tournPick_mem pop p hp _
  · rw [if_neg hc]; exact ha

/-- A selected individual is a member of the population. -/
lemma TournamentSelect_mem (population : List Individual) (t : ℕ) (draws : ℕ → ℕ → ℕ)
    (ind : Individual) (h : TournamentSelect population t draws = some ind) :
    ind ∈ population := by
  match population with
  | [] => simp [TournamentSelect] at h
  | p :: ps =>
    have hp : p ∈ p :: ps := List.mem_cons_self _ _
    have := foldl_preserve (· ∈ p :: ps)
      (fun best i =>
        if (tournRound (p :: ps) p t (draws (i + 1))).Fitness < best.Fitness then
          tournRound (p :: ps) p t (draws (i + 1))
        else best)
      (by
        intro a b ha
        by_cases hc : (tournRound (p :: ps) p t (draws (b + 1))).Fitness < a.Fitness
        · simp only [if_pos hc]; exact tournRound_mem _ _ hp _ _
        · simp only [if_neg hc]; exact ha)
      (List.range 3) _ (tournRound_mem _ _ hp t (draws 0))
    have hval : ind = (List.range 3).foldl
        (fun best i =>
          if (tournRound (p :: ps) p t (draws (i + 1))).Fitness < best.Fitness then
            tournRound (p :: ps) p t (draws (i + 1))
          else best)
        (tournRound (p :: ps) p t (draws 0)) := by
      have h' := h
      unfold TournamentSelect at h'
      exact (Option.some_injective _ h').symm
    rw [hval]
    exact this

/-- A nonempty population never makes selection panic. -/
lemma TournamentSelect_isSome (population : List Individual) (hne : population ≠ [])
    (t : ℕ) (draws : ℕ → ℕ → ℕ) : (TournamentSelect population t draws).isSome := by
  match population with
  | [] => exact absurd rfl hne
  | p :: ps => rfl

end genetic

namespace genetic

/-! ## Mutation (`genetic/mutation.go`, cached-heuristics version) -/

/-- A colored polygon: ordered integer points and a fill color. -/
structure Polygon where
  Points : List (ℤ × ℤ)
  Color : ℕ × ℕ × ℕ × ℕ

/-- Go integer division: panics (`none`) on a zero divisor. -/
def goDiv (a b : ℕ) : Option ℕ :=
  if b = 0 then none else some (a / b)

/-- Collect the results of a loop of fallible computations (panic propagates). -/
def optionMapList {α β : Type _} (f : α → Option β) : List α → Option (List β)
  | [] => some []
  | a :: as =>
    match f a, optionMapList f as with
    | some b, some bs => some (b :: bs)
    | _, _ => none

/-- The random draws a single `Mutate` call can consume.  Per-iteration
draws are indexed by the iteration; vertex draws by iteration and vertex. -/
structure MutRand where
  /-- `rand.Float64()` compared against the mutation rate (pass-through if
  greater). -/
  skip : ℝ
  /-- raw draw of `RandomBetween(1, 3)` for the iteration count. -/
  iterDraw : ℕ
  /-- `rand.Float64()` for the radical-mutation coin. -/
  radical : ℝ
  /-- raw draw of `rand.Intn(3)` extra iterations. -/
  extraIter : ℕ
  /-- raw draw of `RandomBetween(1, int(logSize*5))`, per iteration. -/
  scale : ℕ → ℕ
  /-- raw draw of `RandomBetween(50, floorPower)`, per iteration. -/
  divisorDraw : ℕ → ℕ
  /-- raw draw of `RandomBetween(3, 6)` polygon points, per iteration. -/
  numPts : ℕ → ℕ
  /-- raw draw of `rand.Intn(Dx)`, per iteration. -/
  regionX : ℕ → ℕ
  /-- raw draw of `rand.Intn(Dy)`, per iteration. -/
  regionY : ℕ → ℕ
  /-- raw draws of the two `rand.Intn(2*regionLimit)` per vertex. -/
  vertex : ℕ → ℕ → ℕ × ℕ
  /-- the `RandomRGBA()` fill color, per iteration. -/
  color : ℕ → ℕ × ℕ × ℕ × ℕ

/-- The per-image-area memoised heuristics (`cacheManager.getMutationCache`;
the concurrent map only memoises this pure computation). -/
noncomputable def getMutationCache (region : ℕ) : ℝ × ℕ × ℕ :=
  (if 1 < region then Real.log region / Real.log 10 else 1,
   mathutil.FloorPowerOfTen region,
   region >>> 4)

/-- One mutation iteration's polygon synthesis: jitter radius
`regionLimit = Clamp((region / int(Max(divisor,1))) / scaleFactor, 1, maxLimit)`,
vertex count `RandomBetween(3,6)` (+2 when the rate exceeds 0.1), vertices
clamped into the image. `none` models the `rand.Intn`/division panics. -/
noncomputable def mutatePolygon (mutationRate : ℝ) (logSize : ℝ) (floorPower : ℕ)
    (maxLimit : ℕ) (region : ℕ) (img : RGBAImage) (mr : MutRand) (i : ℕ) : Option Polygon :=
  let scaleFactor := mathutil.RandomBetween 1 (⌊logSize * 5⌋.toNat) (mr.scale i)
  let divisor := mutationRate * (mathutil.RandomBetween 50 floorPower (mr.divisorDraw i) : ℕ)
  match goDiv region (⌊mathutil.Max divisor 1⌋.toNat) with
  | none => none
  | some q =>
    match goDiv q scaleFactor with
    | none => none
    | some q2 =>
      let regionLimit := mathutil.Clamp q2 1 maxLimit
      let numPoints := mathutil.RandomBetween 3 6 (mr.numPts i) +
        (if mutationRate > 0.1 then 2 else 0)
      match goIntn img.w (mr.regionX i), goIntn img.h (mr.regionY i) with
      | some rx, some ry =>
        (optionMapList (fun j =>
          match goIntn (2 * regionLimit) (mr.vertex i j).1,
                goIntn (2 * regionLimit) (mr.vertex i j).2 with
          | some dx, some dy =>
            some ((mathutil.Clamp ((rx : ℤ) + dx - regionLimit) 0 ((img.w : ℤ) - 1),
                   mathutil.Clamp ((ry : ℤ) + dy - regionLimit) 0 ((img.h : ℤ) - 1)))
          | _, _ => none) (List.range numPoints)).map (fun pts => ⟨pts, mr.color i⟩)
      | _, _ => none

/-- `GeneticAlgorithm.Mutate`: with probability `1 - mutationRate` the
individual passes through by reference; otherwise a deep copy receives
`RandomBetween(1,3)` random polygons (up to `rand.Intn(3)` more when the
rate exceeds `0.1` and the radical coin lands), each rendered by the
external rasteriser `render` (polygon generation is concurrent in Go, the
sequential commits are modelled in iteration order). -/
noncomputable def Mutate (mutationRate : ℝ) (render : RGBAImage → Polygon → RGBAImage)
    (mr : MutRand) (ind : Individual) : Option Individual :=
  if mr.skip > mutationRate then some ind
  else
    let child := ind.CreateCopy
    let iterations := mathutil.RandomBetween 1 3 mr.iterDraw +
      (if mutationRate > 0.1 ∧ mr.radical < mutationRate * 2 then mr.extraIter % 3 else 0)
    let region := child.Image.w * child.Image.h
    let cache := getMutationCache region
    match optionMapList
        (mutatePolygon mutationRate cache.1 cache.2.1 cache.2.2 region child.Image mr)
        (List.range iterations) with
    | none => none
    | some polys =>
      some { child with Image := polys.foldl render child.Image }

end genetic

namespace genetic

/-- `mathutil.Clamp` lands in `[lo, hi]` whenever `lo ≤ hi`. -/
lemma Clamp_mem {α : Type _} [LinearOrder α] (v lo hi : α) (h : lo ≤ hi) :
    lo ≤ mathutil.Clamp v lo hi ∧ mathutil.Clamp v lo hi ≤ hi := by
  unfold mathutil.Clamp
  split
  · exact ⟨le_refl _, h⟩
  · split
    · exact ⟨h, le_refl _⟩
    · next h1 h2 => exact ⟨le_of_not_lt h1, le_of_not_lt h2⟩

/-- `optionMapList` succeeds when every element does. -/
lemma optionMapList_isSome {α β : Type _} (f : α → Option β) :
    ∀ l : List α, (∀ a ∈ l, (f a).isSome) → ∃ l', optionMapList f l = some l' := by
  intro l
  induction l with
  | nil => exact fun _ => ⟨[], rfl⟩
  | cons a as ih =>
    intro h
    obtain ⟨b, hb⟩ := Option.isSome_iff_exists.mp (h a (List.mem_cons_self a as))
    obtain ⟨l', hl'⟩ := ih fun x hx => h x (List.mem_cons_of_mem a hx)
    exact ⟨b :: l', by simp [optionMapList, hb, hl']⟩

/-- `isSome` form of `optionMapList_isSome`. -/
lemma optionMapList_some_of_forall {α β : Type _} {f : α → Option β} {l : List α}
    (h : ∀ a ∈ l, (f a).isSome) : (optionMapList f l).isSome := by
  obtain ⟨l', hl'⟩ := optionMapList_isSome f l h
  rw [hl']
  rfl

end genetic

namespace genetic

/-- The scale bound `int(logSize*5)` of the mutation cache is at least 1. -/
lemma logScale_pos (region : ℕ) : 1 ≤ (⌊(getMutationCache region).1 * 5⌋).toNat := by
  have h1 : (1 : ℝ) ≤ (getMutationCache region).1 * 5 := by
    unfold getMutationCache
    simp only
    split
    · next hreg =>
      have h2 : (2 : ℝ) ≤ (region : ℝ) := by exact_mod_cast hreg
      have hlog10 : 0 < Real.log 10 := Real.log_pos (by norm_num)
      have hkey : Real.log 10 ≤ Real.log region * 5 := by
        have h32 : Real.log 10 ≤ Real.log 32 := Real.log_le_log (by norm_num) (by norm_num)
        have h32' : Real.log 32 = 5 * Real.log 2 := by
          rw [show (32 : ℝ) = 2 ^ 5 by norm_num, Real.log_pow]
          push_cast; ring
        have hmono : Real.log 2 ≤ Real.log region := Real.log_le_log (by norm_num) h2
        nlinarith
      rw [div_mul_eq_mul_div, le_div_iff₀ hlog10]
      linarith
    · norm_num
  have h2 : (1 : ℤ) ≤ ⌊(getMutationCache region).1 * 5⌋ := by
    rw [Int.le_floor]; exact_mod_cast h1
  omega

/-- `RandomBetween a b` with `1 ≤ a ≤ b` stays at least 1. -/
lemma RandomBetween_pos (a b d : ℕ) (ha : 1 ≤ a) (hab : a ≤ b) :
    1 ≤ mathutil.RandomBetween a b d := by
  unfold mathutil.RandomBetween
  rw [if_neg (by omega)]
  omega

/-- `int(Max(divisor, 1))` is at least 1 for any real divisor. -/
lemma floorMax_pos (divisor : ℝ) : 1 ≤ (⌊mathutil.Max divisor 1⌋).toNat := by
  have h1 : (1 : ℝ) ≤ mathutil.Max divisor 1 := by
    unfold mathutil.Max
    split
    · next h => exact le_of_lt h
    · exact le_refl 1
  have h2 : (1 : ℤ) ≤ ⌊mathutil.Max divisor 1⌋ := by
    rw [Int.le_floor]; exact_mod_cast h1
  omega

/-- On an image with both dimensions positive and area at least 16, one
mutation iteration never panics. -/
lemma mutatePolygon_isSome (mutationRate : ℝ) (img : RGBAImage) (mr : MutRand) (i : ℕ)
    (hw : 1 ≤ img.w) (hh : 1 ≤ img.h) (harea : 16 ≤ img.w * img.h) :
    (mutatePolygon mutationRate (getMutationCache (img.w * img.h)).1
      (getMutationCache (img.w * img.h)).2.1 (getMutationCache (img.w * img.h)).2.2
      (img.w * img.h) img mr i).isSome := by
  have hdiv1 : ¬((⌊mathutil.Max (mutationRate *
      (mathutil.RandomBetween 50 (getMutationCache (img.w * img.h)).2.1 (mr.divisorDraw i) : ℕ))
      1⌋).toNat = 0) := by
    have := floorMax_pos (mutationRate *
      (mathutil.RandomBetween 50 (getMutationCache (img.w * img.h)).2.1 (mr.divisorDraw i) : ℕ))
    omega
  have hscale : ¬(mathutil.RandomBetween 1 (⌊(getMutationCache (img.w * img.h)).1 * 5⌋).toNat
      (mr.scale i) = 0) := by
    have := RandomBetween_pos 1 (⌊(getMutationCache (img.w * img.h)).1 * 5⌋).toNat
      (mr.scale i) (le_refl 1) (logScale_pos (img.w * img.h))
    omega
  have hml : 1 ≤ (getMutationCache (img.w * img.h)).2.2 := by
    show 1 ≤ (img.w * img.h) >>> 4
    rw [Nat.shiftRight_eq_div_pow]
    omega
  have hrl : ∀ q2 : ℕ, ¬(2 * mathutil.Clamp q2 1 (getMutationCache (img.w * img.h)).2.2 = 0) := by
    intro q2
    have := (Clamp_mem q2 1 _ hml).1
    omega
  simp only [mutatePolygon, goDiv, goIntn, if_neg hdiv1, if_neg hscale,
    if_neg (by omega : ¬img.w = 0), if_neg (by omega : ¬img.h = 0), if_neg (hrl _)]
  rw [Option.isSome_map']
  apply optionMapList_some_of_forall
  intro j _
  rfl

/-- `Mutate` never panics on images with positive dimensions and area at
least 16, and preserves the image dimensions as long as the external
rasteriser does. -/
lemma Mutate_some (mutationRate : ℝ) (render : RGBAImage → Polygon → RGBAImage)
    (mr : MutRand) (ind : Individual)
    (hw : 1 ≤ ind.Image.w) (hh : 1 ≤ ind.Image.h) (harea : 16 ≤ ind.Image.w * ind.Image.h)
    (hrender : ∀ img poly, (render img poly).w = img.w ∧ (render img poly).h = img.h) :
    ∃ ind', Mutate mutationRate render mr ind = some ind' ∧
      ind'.Image.w = ind.Image.w ∧ ind'.Image.h = ind.Image.h := by
  simp only [Mutate]
  split
  · exact ⟨ind, rfl, rfl, rfl⟩
  · obtain ⟨polys, hpolys⟩ := optionMapList_isSome
      (mutatePolygon mutationRate
        (getMutationCache (ind.CreateCopy.Image.w * ind.CreateCopy.Image.h)).1
        (getMutationCache (ind.CreateCopy.Image.w * ind.CreateCopy.Image.h)).2.1
        (getMutationCache (ind.CreateCopy.Image.w * ind.CreateCopy.Image.h)).2.2
        (ind.CreateCopy.Image.w * ind.CreateCopy.Image.h) ind.CreateCopy.Image mr)
      (List.range (mathutil.RandomBetween 1 3 mr.iterDraw +
        if mutationRate > 0.1 ∧ mr.radical < mutationRate * 2 then mr.extraIter % 3 else 0))
      (fun a _ => mutatePolygon_isSome mutationRate ind.CreateCopy.Image mr a hw hh harea)
    rw [hpolys]
    refine ⟨_, rfl, ?_⟩
    have hfold : ∀ (ps : List Polygon) (img : RGBAImage),
        (ps.foldl render img).w = img.w ∧ (ps.foldl render img).h = img.h := by
      intro ps
      induction ps with
      | nil => exact fun _ => ⟨rfl, rfl⟩
      | cons p ps ih =>
        intro img
        simp only [List.foldl_cons]
        exact ⟨(ih _).1.trans (hrender img p).1, (ih _).2.trans (hrender img p).2⟩
    exact ⟨(hfold polys ind.CreateCopy.Image).1, (hfold polys ind.CreateCopy.Image).2⟩

end genetic

namespace genetic

/-! ## The pair task of `evolvePopulation` (`genetic/algorithm.go`) -/

/-- The fitness-ascending comparator of every `sort.Slice` call is decidable. -/
noncomputable instance : DecidableRel (fun a b : Individual => a.Fitness ≤ b.Fitness) :=
  fun a b => Real.decidableLE a.Fitness b.Fitness

instance : IsTotal Individual (fun a b : Individual => a.Fitness ≤ b.Fitness) :=
  ⟨fun a b => le_total a.Fitness b.Fitness⟩

instance : IsTrans Individual (fun a b : Individual => a.Fitness ≤ b.Fitness) :=
  ⟨fun _ _ _ hab hbc => le_trans hab hbc⟩

/-- `sort.Slice(s, func(i, j) { return s[i].Fitness < s[j].Fitness })`,
modelled as an insertion sort (any Go sort produces some fitness-ascending
permutation; only permutation-invariant consequences are stated). -/
noncomputable def sortByFitness (l : List Individual) : List Individual :=
  l.insertionSort (fun a b => a.Fitness ≤ b.Fitness)

/-- The crossover→mutate→score phase of one pair task: the two selected
parents produce two children, each mutated independently and then scored
against the target. -/
noncomputable def pairChildren (target : RGBAImage) (mutationRate : ℝ) (gomaxprocs : ℕ)
    (render : RGBAImage → Polygon → RGBAImage) (cr : CrossRand) (m1 m2 : MutRand)
    (parent1 parent2 : Individual) : Option (Individual × Individual) :=
  match Crossover gomaxprocs cr parent1 parent2 with
  | none => none
  | some (c1, c2) =>
    match Mutate mutationRate render m1 c1, Mutate mutationRate render m2 c2 with
    | some m1', some m2' =>
      some (m1'.CalculateFitness target gomaxprocs, m2'.CalculateFitness target gomaxprocs)
    | _, _ => none

/-- The survivor-selection phase of one pair task: sort the four candidates
`{child1, child2, parent1, parent2}` by fitness ascending and write deep
copies of the best two into the pair's output slots. -/
noncomputable def pairTaskCore (target : RGBAImage) (mutationRate : ℝ) (gomaxprocs : ℕ)
    (render : RGBAImage → Polygon → RGBAImage) (cr : CrossRand) (m1 m2 : MutRand)
    (parent1 parent2 : Individual) : Option (Individual × Individual) :=
  match pairChildren target mutationRate gomaxprocs render cr m1 m2 parent1 parent2 with
  | none => none
  | some (child1, child2) =>
    let candidates := sortByFitness [child1, child2, parent1, parent2]
    some ((candidates.getD 0 default).CreateCopy, (candidates.getD 1 default).CreateCopy)

end genetic

namespace genetic

/-- C4.  Whenever the crossover→mutate→score phase of a pair task produces
the two scored children `ch1, ch2`, the task completes and writes (deep
copies of) the two lowest-fitness members of `{ch1, ch2, parent1, parent2}`
into its output slots: the sorted candidate fitness list is an ascending
permutation of the four candidates' fitnesses, the outputs carry its first
two entries, and the better output is at least as fit as the better
parent. -/
theorem pairTask_best_two (target : RGBAImage) (mutationRate : ℝ) (gomaxprocs : ℕ)
    (render : RGBAImage → Polygon → RGBAImage) (cr : CrossRand) (m1 m2 : MutRand)
    (p1 p2 ch1 ch2 : Individual)
    (h : pairChildren target mutationRate gomaxprocs render cr m1 m2 p1 p2 = some (ch1, ch2)) :
    ∃ o1 o2,
      pairTaskCore target mutationRate gomaxprocs render cr m1 m2 p1 p2 = some (o1, o2) ∧
      List.Sorted (· ≤ ·) ((sortByFitness [ch1, ch2, p1, p2]).map Individual.Fitness) ∧
      List.Perm ((sortByFitness [ch1, ch2, p1, p2]).map Individual.Fitness)
        [ch1.Fitness, ch2.Fitness, p1.Fitness, p2.Fitness] ∧
      ((sortByFitness [ch1, ch2, p1, p2]).map Individual.Fitness).take 2
        = [o1.Fitness, o2.Fitness] ∧
      o1.Fitness ≤ o2.Fitness ∧
      min o1.Fitness o2.Fitness ≤ min p1.Fitness p2.Fitness := by
  have hperm : List.Perm (sortByFitness [ch1, ch2, p1, p2]) [ch1, ch2, p1, p2] :=
    List.perm_insertionSort _ _
  have hsorted : List.Sorted (fun a b : Individual => a.Fitness ≤ b.Fitness)
      (sortByFitness [ch1, ch2, p1, p2]) :=
    List.sorted_insertionSort _ _
  have hlen : (sortByFitness [ch1, ch2, p1, p2]).length = 4 := hperm.length_eq
  obtain ⟨a, b, rest, hs⟩ :
      ∃ a b rest, sortByFitness [ch1, ch2, p1, p2] = a :: b :: rest := by
    rcases hl : sortByFitness [ch1, ch2, p1, p2] with _ | ⟨a, _ | ⟨b, rest⟩⟩
    · rw [hl] at hlen; simp at hlen
    · rw [hl] at hlen; simp at hlen
    · exact ⟨a, b, rest, rfl⟩
  have hle_all : ∀ x ∈ b :: rest, a.Fitness ≤ x.Fitness := by
    rw [hs] at hsorted
    exact fun x hx => (List.sorted_cons.mp hsorted).1 x hx
  have hab : a.Fitness ≤ b.Fitness := hle_all b (List.mem_cons_self _ _)
  have hle_mem : ∀ x ∈ sortByFitness [ch1, ch2, p1, p2], a.Fitness ≤ x.Fitness := by
    intro x hx
    rw [hs] at hx
    rcases List.mem_cons.mp hx with rfl | hx'
    · exact le_refl _
    · exact hle_all x hx'
  have hap1 : a.Fitness ≤ p1.Fitness :=
    hle_mem p1 (hperm.mem_iff.mpr (by simp))
  have hap2 : a.Fitness ≤ p2.Fitness :=
    hle_mem p2 (hperm.mem_iff.mpr (by simp))
  refine ⟨(a.CreateCopy), (b.CreateCopy), ?_, ?_, ?_, ?_, hab, ?_⟩
  · simp only [pairTaskCore, h]
    rw [hs]
    rfl
  · exact List.Pairwise.map Individual.Fitness (fun _ _ hr => hr) hsorted
  · exact hperm.map Individual.Fitness
  · rw [hs]; rfl
  · show min a.Fitness b.Fitness ≤ min p1.Fitness p2.Fitness
    rw [min_eq_left hab]
    exact le_min hap1 hap2

end genetic

namespace genetic

/-! ### Concrete fixtures for witnesses -/

/-- A 0×0 image (all reads hit the zero-initialised store). -/
def blankImage : RGBAImage := ⟨0, 0, fun _ => 0⟩

/-- A scored blank individual. -/
def blankIndividual : Individual := ⟨0, blankImage⟩

/-- Draws that select the patch-swap strategy and swap no tile. -/
noncomputable def patchOnlyCross : CrossRand :=
  ⟨0.95, fun _ => 0, 0, 0, 0, fun _ _ => 1⟩

/-- Draws that make `Mutate` take the pass-through branch for any rate `< 1`. -/
noncomputable def skipMut : MutRand :=
  ⟨1, 0, 0, 0, fun _ => 0, fun _ => 0, fun _ => 0, fun _ => 0, fun _ => 0,
   fun _ _ => (0, 0), fun _ => (0, 0, 0, 0)⟩

/-- The patch-crossover child of two blank parents with no tile swapped. -/
noncomputable def blankPatchChild : Individual :=
  ⟨0, ⟨0, 0, patchChildPix patchOnlyCross.patch blankImage blankImage⟩⟩

/-- Concrete evaluation: with patch-swap drawn and mutation skipped, the
pair-children phase completes on two blank parents. -/
lemma pairChildren_concrete :
    pairChildren blankImage 0 1 (fun img _ => img) patchOnlyCross skipMut skipMut
        blankIndividual blankIndividual
      = some (blankPatchChild.CalculateFitness blankImage 1,
              blankPatchChild.CalculateFitness blankImage 1) := by
  have h1 : ¬((0.95 : ℝ) < 0.3) := by norm_num
  have h2 : ¬((0.95 : ℝ) < 0.7) := by norm_num
  have h3 : ¬((0.95 : ℝ) < 0.9) := by norm_num
  have h4 : (1 : ℝ) > 0 := by norm_num
  simp only [pairChildren, Crossover, patchOnlyCross, h1, h2, h3, if_neg, if_false,
    patchCrossover, Mutate, skipMut, if_pos h4, blankIndividual, blankPatchChild, blankImage]

/-- Witness for C4 at the concrete fixture above. -/
theorem pairTask_best_two_witness :
    (pairChildren blankImage 0 1 (fun img _ => img) patchOnlyCross skipMut skipMut
        blankIndividual blankIndividual
      = some (blankPatchChild.CalculateFitness blankImage 1,
              blankPatchChild.CalculateFitness blankImage 1)) ∧
    ∃ o1 o2,
      pairTaskCore blankImage 0 1 (fun img _ => img) patchOnlyCross skipMut skipMut
          blankIndividual blankIndividual = some (o1, o2) ∧
      List.Sorted (· ≤ ·) ((sortByFitness [blankPatchChild.CalculateFitness blankImage 1,
          blankPatchChild.CalculateFitness blankImage 1, blankIndividual,
          blankIndividual]).map Individual.Fitness) ∧
      List.Perm ((sortByFitness [blankPatchChild.CalculateFitness blankImage 1,
          blankPatchChild.CalculateFitness blankImage 1, blankIndividual,
          blankIndividual]).map Individual.Fitness)
        [(blankPatchChild.CalculateFitness blankImage 1).Fitness,
         (blankPatchChild.CalculateFitness blankImage 1).Fitness,
         blankIndividual.Fitness, blankIndividual.Fitness] ∧
      ((sortByFitness [blankPatchChild.CalculateFitness blankImage 1,
          blankPatchChild.CalculateFitness blankImage 1, blankIndividual,
          blankIndividual]).map Individual.Fitness).take 2 = [o1.Fitness, o2.Fitness] ∧
      o1.Fitness ≤ o2.Fitness ∧
      min o1.Fitness o2.Fitness ≤ min blankIndividual.Fitness blankIndividual.Fitness :=
  ⟨pairChildren_concrete,
   pairTask_best_two blankImage 0 1 (fun img _ => img) patchOnlyCross skipMut skipMut
     blankIndividual blankIndividual _ _ pairChildren_concrete⟩

end genetic

namespace genetic

/-! ## `evolvePopulation`: batched pair tasks -/

/-- The random draws of one pair-task goroutine. -/
structure PairRand where
  /-- tournament draws for the first parent. -/
  sel1 : ℕ → ℕ → ℕ
  /-- tournament draws for the second parent. -/
  sel2 : ℕ → ℕ → ℕ
  /-- crossover draws. -/
  cross : CrossRand
  /-- mutation draws for child 1. -/
  mut1 : MutRand
  /-- mutation draws for child 2. -/
  mut2 : MutRand

/-- One pair task: select two parents by tournament (independently, with
replacement), then cross, mutate, score and pick survivors. -/
noncomputable def pairTask (tournamentSize : ℕ) (target : RGBAImage) (mutationRate : ℝ)
    (gomaxprocs : ℕ) (render : RGBAImage → Polygon → RGBAImage) (prr : PairRand)
    (population : List Individual) : Option (Individual × Individual) :=
  match TournamentSelect population tournamentSize prr.sel1,
        TournamentSelect population tournamentSize prr.sel2 with
  | some parent1, some parent2 =>
    pairTaskCore target mutationRate gomaxprocs render prr.cross prr.mut1 prr.mut2
      parent1 parent2
  | _, _ => none

/-- The pair start indices of the batch loop
`for start := 0; start < popSize-1; start += batchSize` with
`end = min(start+batchSize, popSize - popSize%2)` and pairs
`for i := start; i < end; i += 2`.  (The extra `0 < batchSize` guard makes
the recursion well-founded; in Go `batchSize ≥ 2` always holds since
`runtime.NumCPU() ≥ 1`.) -/
def pairStarts (popSize batchSize start : ℕ) : List ℕ :=
  if _h : start < popSize - 1 ∧ 0 < batchSize then
    (List.range
        (((if start + batchSize > popSize then popSize - popSize % 2
           else start + batchSize) - start + 1) / 2)).map (fun k => start + 2 * k) ++
      pairStarts popSize batchSize (start + batchSize)
  else []
termination_by popSize - start
decreasing_by omega

/-- A loop of fallible steps threading an accumulator (panic propagates). -/
def optionFoldList {α β : Type _} (f : β → α → Option β) : List α → β → Option β
  | [], b => some b
  | a :: as, b =>
    match f b a with
    | none => none
    | some b' => optionFoldList f as b'

/-- `evolvePopulation`: dispatch the pair tasks batch by batch, each task
writing its two output slots; fill the odd leftover slot with a copy of
the previous generation's best; sort the new population by fitness.
A `nil` slot (never produced when all tasks ran) would crash the final
sort's comparator, hence the `optionMapList` read-out. -/
noncomputable def evolvePopulation (popSize tournamentSize : ℕ) (mutationRate : ℝ)
    (target : RGBAImage) (numCPU gomaxprocs : ℕ)
    (render : RGBAImage → Polygon → RGBAImage) (pr : ℕ → PairRand)
    (population : List Individual) : Option (List Individual) :=
  let batchSize0 := numCPU * 3 / 2 * 2
  let batchSize := if batchSize0 > popSize then popSize - popSize % 2 else batchSize0
  match optionFoldList
      (fun (slots : ℕ → Option Individual) i =>
        (pairTask tournamentSize target mutationRate gomaxprocs render (pr i)
            population).map
          (fun res j => if j = i then some res.1 else if j = i + 1 then some res.2
            else slots j))
      (pairStarts popSize batchSize 0) (fun _ => none) with
  | none => none
  | some slots0 =>
    if popSize % 2 ≠ 0 then
      match population with
      | [] => none
      | p :: _ =>
        (optionMapList
          (fun j => if j = popSize - 1 then some p.CreateCopy else slots0 j)
          (List.range popSize)).map sortByFitness
    else
      (optionMapList slots0 (List.range popSize)).map sortByFitness

end genetic

namespace genetic

/-- With equal parent dimensions at least 2×2, every crossover strategy
returns children with the parents' dimensions. -/
lemma Crossover_some_dims (gomaxprocs : ℕ) (cr : CrossRand) (p1 p2 : Individual)
    (hww : p2.Image.w = p1.Image.w) (hhh : p2.Image.h = p1.Image.h)
    (hw2 : 2 ≤ p1.Image.w) (hh2 : 2 ≤ p1.Image.h) :
    ∃ c1 c2, Crossover gomaxprocs cr p1 p2 = some (c1, c2) ∧
      c1.Image.w = p1.Image.w ∧ c1.Image.h = p1.Image.h ∧
      c2.Image.w = p1.Image.w ∧ c2.Image.h = p1.Image.h := by
  unfold Crossover
  by_cases h1 : cr.strategy < 0.3
  · rw [if_pos h1]
    exact ⟨_, _, rfl, rfl, rfl, rfl, rfl⟩
  · rw [if_neg h1]
    by_cases h2 : cr.strategy < 0.7
    · rw [if_pos h2]
      unfold crossoverPoint goIntn
      by_cases hd : cr.isHoriz ≤ 0.5
      · rw [if_pos hd, if_neg (by omega)]
        exact ⟨_, _, rfl, rfl, rfl, rfl, rfl⟩
      · rw [if_neg hd, if_neg (by omega)]
        exact ⟨_, _, rfl, rfl, rfl, rfl, rfl⟩
    · rw [if_neg h2]
      by_cases h3 : cr.strategy < 0.9
      · rw [if_pos h3]
        exact ⟨_, _, rfl, rfl, rfl, rfl, rfl⟩
      · rw [if_neg h3]
        exact ⟨_, _, rfl, rfl, rfl, hww, hhh⟩

/-- Every element of a fitness-sorted list is drawn from the input list. -/
lemma sortByFitness_mem {l : List Individual} {x : Individual}
    (hx : x ∈ sortByFitness l) : x ∈ l :=
  (List.perm_insertionSort _ l).mem_iff.mp hx

/-- On a population of `target`-sized individuals (dimensions at least 2×2,
area at least 16), a pair task always completes, and its two outputs again
have the target's dimensions. -/
lemma pairTask_some (tournamentSize : ℕ) (target : RGBAImage) (mutationRate : ℝ)
    (gomaxprocs : ℕ) (render : RGBAImage → Polygon → RGBAImage) (prr : PairRand)
    (population : List Individual) (hne : population ≠ [])
    (hdims : ∀ ind ∈ population, ind.Image.w = target.w ∧ ind.Image.h = target.h)
    (hw2 : 2 ≤ target.w) (hh2 : 2 ≤ target.h) (harea : 16 ≤ target.w * target.h)
    (hrender : ∀ img poly, (render img poly).w = img.w ∧ (render img poly).h = img.h) :
    ∃ r1 r2, pairTask tournamentSize target mutationRate gomaxprocs render prr population
        = some (r1, r2) ∧
      r1.Image.w = target.w ∧ r1.Image.h = target.h ∧
      r2.Image.w = target.w ∧ r2.Image.h = target.h := by
  obtain ⟨parent1, hp1⟩ := Option.isSome_iff_exists.mp
    (TournamentSelect_isSome population hne tournamentSize prr.sel1)
  obtain ⟨parent2, hp2⟩ := Option.isSome_iff_exists.mp
    (TournamentSelect_isSome population hne tournamentSize prr.sel2)
  have hd1 := hdims parent1 (TournamentSelect_mem _ _ _ _ hp1)
  have hd2 := hdims parent2 (TournamentSelect_mem _ _ _ _ hp2)
  obtain ⟨c1, c2, hcross, hc1w, hc1h, hc2w, hc2h⟩ :=
    Crossover_some_dims gomaxprocs prr.cross parent1 parent2
      (hd2.1.trans hd1.1.symm) (hd2.2.trans hd1.2.symm)
      (hd1.1 ▸ hw2) (hd1.2 ▸ hh2)
  have harea1 : 16 ≤ c1.Image.w * c1.Image.h := by
    rw [hc1w, hc1h, hd1.1, hd1.2]; exact harea
  have harea2 : 16 ≤ c2.Image.w * c2.Image.h := by
    rw [hc2w, hc2h, hd1.1, hd1.2]; exact harea
  obtain ⟨m1', hm1, hm1w, hm1h⟩ := Mutate_some mutationRate render prr.mut1 c1
    (by rw [hc1w, hd1.1]; omega) (by rw [hc1h, hd1.2]; omega) harea1 hrender
  obtain ⟨m2', hm2, hm2w, hm2h⟩ := Mutate_some mutationRate render prr.mut2 c2
    (by rw [hc2w, hd1.1]; omega) (by rw [hc2h, hd1.2]; omega) harea2 hrender
  have hchild : pairChildren target mutationRate gomaxprocs render prr.cross prr.mut1
      prr.mut2 parent1 parent2
      = some (m1'.CalculateFitness target gomaxprocs,
              m2'.CalculateFitness target gomaxprocs) := by
    unfold pairChildren
    rw [hcross]
    simp only [hm1, hm2]
  have hcand : ∀ x ∈ sortByFitness [m1'.CalculateFitness target gomaxprocs,
      m2'.CalculateFitness target gomaxprocs, parent1, parent2],
      x.Image.w = target.w ∧ x.Image.h = target.h := by
    intro x hx
    have hx' := sortByFitness_mem hx
    simp only [List.mem_cons, List.not_mem_nil, or_false] at hx'
    rcases hx' with rfl | rfl | rfl | rfl
    · exact ⟨hm1w.trans (hc1w.trans hd1.1), hm1h.trans (hc1h.trans hd1.2)⟩
    · exact ⟨hm2w.trans (hc2w.trans hd1.1), hm2h.trans (hc2h.trans hd1.2)⟩
    · exact hd1
    · exact hd2
  have hlen : (sortByFitness [m1'.CalculateFitness target gomaxprocs,
      m2'.CalculateFitness target gomaxprocs, parent1, parent2]).length = 4 :=
    (List.perm_insertionSort _ _).length_eq
  have hget0 : (sortByFitness [m1'.CalculateFitness target gomaxprocs,
      m2'.CalculateFitness target gomaxprocs, parent1, parent2]).getD 0 default
      ∈ sortByFitness [m1'.CalculateFitness target gomaxprocs,
        m2'.CalculateFitness target gomaxprocs, parent1, parent2] := by
    rw [List.getD_eq_getElem _ _ (by omega)]
    exact List.getElem_mem _
  have hget1 : (sortByFitness [m1'.CalculateFitness target gomaxprocs,
      m2'.CalculateFitness target gomaxprocs, parent1, parent2]).getD 1 default
      ∈ sortByFitness [m1'.CalculateFitness target gomaxprocs,
        m2'.CalculateFitness target gomaxprocs, parent1, parent2] := by
    rw [List.getD_eq_getElem _ _ (by omega)]
    exact List.getElem_mem _
  refine ⟨((sortByFitness [m1'.CalculateFitness target gomaxprocs,
      m2'.CalculateFitness target gomaxprocs, parent1, parent2]).getD 0 default).CreateCopy,
    ((sortByFitness [m1'.CalculateFitness target gomaxprocs,
      m2'.CalculateFitness target gomaxprocs, parent1, parent2]).getD 1 default).CreateCopy,
    ?_, ?_⟩
  · unfold pairTask pairTaskCore
    rw [hp1, hp2]
    simp only [hchild]
  · exact ⟨(hcand _ hget0).1, (hcand _ hget0).2, (hcand _ hget1).1, (hcand _ hget1).2⟩

end genetic

namespace genetic

/-- Coverage of the batch loop: starting from an even `start`, every slot
index in `[start, popSize - popSize%2)` belongs to some dispatched pair
`(i, i+1)`, provided the (even) batch size is at least 2. -/
lemma pairStarts_cover (popSize b : ℕ) (hb2 : 2 ≤ b) (hbe : b % 2 = 0) :
    ∀ fuel start, popSize - start ≤ fuel → start % 2 = 0 →
      ∀ j, start ≤ j → j < popSize - popSize % 2 →
        ∃ i ∈ pairStarts popSize b start, j = i ∨ j = i + 1 := by
  intro fuel
  induction fuel with
  | zero =>
    intro start hf _ j hj1 hj2
    omega
  | succ fuel ih =>
    intro start hf hse j hj1 hj2
    rw [pairStarts]
    rw [dif_pos (by omega : start < popSize - 1 ∧ 0 < b)]
    by_cases hcap : start + b > popSize
    · rw [if_pos hcap]
      refine ⟨start + 2 * ((j - start) / 2), ?_, by omega⟩
      apply List.mem_append_left
      apply List.mem_map.mpr
      exact ⟨(j - start) / 2, List.mem_range.mpr (by omega), rfl⟩
    · rw [if_neg hcap]
      by_cases hjb : j < start + b
      · refine ⟨start + 2 * ((j - start) / 2), ?_, by omega⟩
        apply List.mem_append_left
        apply List.mem_map.mpr
        exact ⟨(j - start) / 2, List.mem_range.mpr (by omega), rfl⟩
      · obtain ⟨i, hi, hij⟩ := ih (start + b) (by omega) (by omega) j (by omega) hj2
        exact ⟨i, List.mem_append_right _ hi, hij⟩

/-- Running the batched pair tasks fills every covered slot, with outputs
satisfying any per-output property `Q` every task guarantees. -/
lemma optionFoldList_slots (Q : Individual → Prop)
    (task : ℕ → Option (Individual × Individual))
    (htask : ∀ i, ∃ r1 r2, task i = some (r1, r2) ∧ Q r1 ∧ Q r2) :
    ∀ (starts : List ℕ) (slots : ℕ → Option Individual),
      ∃ slots', optionFoldList
          (fun (slots : ℕ → Option Individual) i =>
            (task i).map (fun res j =>
              if j = i then some res.1 else if j = i + 1 then some res.2 else slots j))
          starts slots = some slots' ∧
        ∀ j, ((∃ i ∈ starts, j = i ∨ j = i + 1) ∨ (∃ r, slots j = some r ∧ Q r)) →
          ∃ r, slots' j = some r ∧ Q r := by
  intro starts
  induction starts with
  | nil =>
    intro slots
    refine ⟨slots, rfl, ?_⟩
    intro j hj
    rcases hj with ⟨i, hi, _⟩ | h
    · simp at hi
    · exact h
  | cons i rest ih =>
    intro slots
    obtain ⟨r1, r2, htaski, hq1, hq2⟩ := htask i
    obtain ⟨slots', hfold, hprop⟩ := ih
      (fun j => if j = i then some r1 else if j = i + 1 then some r2 else slots j)
    refine ⟨slots', ?_, ?_⟩
    · show optionFoldList _ (i :: rest) slots = some slots'
      unfold optionFoldList
      rw [htaski]
      exact hfold
    · intro j hj
      rcases hj with ⟨i', hi', hji'⟩ | ⟨r, hr, hqr⟩
      · rcases List.mem_cons.mp hi' with rfl | hrest
        · apply hprop
          right
          rcases hji' with rfl | rfl
          · exact ⟨r1, by simp, hq1⟩
          · refine ⟨r2, ?_, hq2⟩
            by_cases hji : i' + 1 = i'
            · omega
            · simp [hji]
        · exact hprop j (Or.inl ⟨i', hrest, hji'⟩)
      · apply hprop
        right
        by_cases h1 : j = i
        · exact ⟨r1, by simp [h1], hq1⟩
        · by_cases h2 : j = i + 1
          · exact ⟨r2, by simp [h1, h2], hq2⟩
          · exact ⟨r, by simp [h1, h2, hr], hqr⟩

/-- `optionMapList` over all-`some`, `Q`-satisfying values yields a list of
the same length whose members satisfy `Q`. -/
lemma optionMapList_range {β : Type _} (Q : β → Prop) (f : ℕ → Option β) (n : ℕ)
    (h : ∀ j < n, ∃ r, f j = some r ∧ Q r) :
    ∃ l, optionMapList f (List.range n) = some l ∧ l.length = n ∧ ∀ x ∈ l, Q x := by
  have main : ∀ (js : List ℕ), (∀ j ∈ js, ∃ r, f j = some r ∧ Q r) →
      ∃ l, optionMapList f js = some l ∧ l.length = js.length ∧ ∀ x ∈ l, Q x := by
    intro js
    induction js with
    | nil => exact fun _ => ⟨[], rfl, rfl, by simp⟩
    | cons j rest ih =>
      intro hall
      obtain ⟨r, hr, hqr⟩ := hall j (List.mem_cons_self _ _)
      obtain ⟨l, hl, hlen, hq⟩ := ih fun x hx => hall x (List.mem_cons_of_mem _ hx)
      refine ⟨r :: l, ?_, by simp [hlen], ?_⟩
      · show optionMapList f (j :: rest) = some (r :: l)
        unfold optionMapList
        rw [hr, hl]
      · intro x hx
        rcases List.mem_cons.mp hx with rfl | hx'
        · exact hqr
        · exact hq x hx'
  obtain ⟨l, h1, h2, h3⟩ := main (List.range n) fun j hj => h j (List.mem_range.mp hj)
  exact ⟨l, h1, by simpa using h2, h3⟩

end genetic

namespace genetic

/-- The main guarantee of the generation step: on a population of exactly
`popSize` target-sized individuals (dimensions at least 2×2, area at least
16), with at least one CPU, `evolvePopulation` completes and returns
exactly `popSize` individuals (no `nil` slot), sorted ascending by fitness,
all again target-sized. -/
lemma evolvePopulation_spec (popSize tournamentSize : ℕ) (mutationRate : ℝ)
    (target : RGBAImage) (numCPU gomaxprocs : ℕ)
    (render : RGBAImage → Polygon → RGBAImage) (pr : ℕ → PairRand)
    (population : List Individual)
    (hcpu : 1 ≤ numCPU) (hlen : population.length = popSize) (hpos : 1 ≤ popSize)
    (hdims : ∀ ind ∈ population, ind.Image.w = target.w ∧ ind.Image.h = target.h)
    (hw2 : 2 ≤ target.w) (hh2 : 2 ≤ target.h) (harea : 16 ≤ target.w * target.h)
    (hrender : ∀ img poly, (render img poly).w = img.w ∧ (render img poly).h = img.h) :
    ∃ out, evolvePopulation popSize tournamentSize mutationRate target numCPU gomaxprocs
        render pr population = some out ∧
      out.length = popSize ∧
      List.Sorted (fun a b : Individual => a.Fitness ≤ b.Fitness) out ∧
      ∀ ind ∈ out, ind.Image.w = target.w ∧ ind.Image.h = target.h := by
  obtain ⟨p, rest, rfl⟩ : ∃ p rest, population = p :: rest := by
    cases population with
    | nil => exact absurd hlen (by simp; omega)
    | cons p rest => exact ⟨p, rest, rfl⟩
  have hne : p :: rest ≠ [] := by simp
  have htask : ∀ i : ℕ, ∃ r1 r2,
      pairTask tournamentSize target mutationRate gomaxprocs render (pr i) (p :: rest)
        = some (r1, r2) ∧
      (r1.Image.w = target.w ∧ r1.Image.h = target.h) ∧
      (r2.Image.w = target.w ∧ r2.Image.h = target.h) := by
    intro i
    obtain ⟨r1, r2, heq, h1, h2, h3, h4⟩ := pairTask_some tournamentSize target mutationRate
      gomaxprocs render (pr i) (p :: rest) hne hdims hw2 hh2 harea hrender
    exact ⟨r1, r2, heq, ⟨h1, h2⟩, ⟨h3, h4⟩⟩
  obtain ⟨slots0, hfoldeq, hslots⟩ := optionFoldList_slots
    (fun ind => ind.Image.w = target.w ∧ ind.Image.h = target.h)
    (fun i => pairTask tournamentSize target mutationRate gomaxprocs render (pr i) (p :: rest))
    htask
    (pairStarts popSize
      (if numCPU * 3 / 2 * 2 > popSize then popSize - popSize % 2 else numCPU * 3 / 2 * 2) 0)
    (fun _ => none)
  have hcover : ∀ j, j < popSize - popSize % 2 →
      ∃ i ∈ pairStarts popSize
        (if numCPU * 3 / 2 * 2 > popSize then popSize - popSize % 2 else numCPU * 3 / 2 * 2) 0,
        j = i ∨ j = i + 1 := by
    intro j hj
    rcases Nat.lt_or_ge popSize 2 with hsmall | hbig
    · omega
    · refine pairStarts_cover popSize _ ?_ ?_ popSize 0 (by omega) rfl j (Nat.zero_le _) hj
      · split <;> omega
      · split <;> omega
  have hslots_all : ∀ j, j < popSize - popSize % 2 →
      ∃ r, slots0 j = some r ∧ r.Image.w = target.w ∧ r.Image.h = target.h :=
    fun j hj => hslots j (Or.inl (hcover j hj))
  have hfinish : ∀ (newPop : List Individual), newPop.length = popSize →
      (∀ x ∈ newPop, x.Image.w = target.w ∧ x.Image.h = target.h) →
      (sortByFitness newPop).length = popSize ∧
      List.Sorted (fun a b : Individual => a.Fitness ≤ b.Fitness) (sortByFitness newPop) ∧
      ∀ ind ∈ sortByFitness newPop, ind.Image.w = target.w ∧ ind.Image.h = target.h := by
    intro newPop hnp hq
    exact ⟨(List.perm_insertionSort _ _).length_eq.trans hnp,
      List.sorted_insertionSort _ _,
      fun ind hind => hq ind (sortByFitness_mem hind)⟩
  simp only [evolvePopulation]
  rw [hfoldeq]
  by_cases hodd : popSize % 2 ≠ 0
  · obtain ⟨newPop, hmap, hnplen, hnpq⟩ := optionMapList_range
      (fun ind => ind.Image.w = target.w ∧ ind.Image.h = target.h)
      (fun j => if j = popSize - 1 then some p.CreateCopy else slots0 j) popSize
      (by
        intro j hj
        by_cases hlast : j = popSize - 1
        · refine ⟨p.CreateCopy, by simp only [if_pos hlast], ?_⟩
          exact hdims p (List.mem_cons_self _ _)
        · simp only [if_neg hlast]
          exact hslots_all j (by omega))
    refine ⟨sortByFitness newPop, ?_, hfinish newPop hnplen hnpq⟩
    simp [hodd, hmap]
  · obtain ⟨newPop, hmap, hnplen, hnpq⟩ := optionMapList_range
      (fun ind => ind.Image.w = target.w ∧ ind.Image.h = target.h)
      slots0 popSize
      (fun j hj => hslots_all j (by omega))
    refine ⟨sortByFitness newPop, ?_, hfinish newPop hnplen hnpq⟩
    simp [hodd, hmap]

end genetic

namespace genetic

/-- C1.  On any input population of exactly `PopulationSize ≥ 1` individuals
(even or odd), all carrying target-sized buffers (target at least 2×2 with
area ≥ 16, the degenerate panicking geometries being the subject of C7),
`evolvePopulation` returns a slice of exactly `PopulationSize` individuals
with no `nil` slot, sorted ascending by fitness: every adjacent pair of
fitness values is ordered. -/
theorem evolvePopulation_size_and_sorted (popSize tournamentSize : ℕ) (mutationRate : ℝ)
    (target : RGBAImage) (numCPU gomaxprocs : ℕ)
    (render : RGBAImage → Polygon → RGBAImage) (pr : ℕ → PairRand)
    (population : List Individual)
    (hcpu : 1 ≤ numCPU) (hlen : population.length = popSize) (hpos : 1 ≤ popSize)
    (hdims : ∀ ind ∈ population, ind.Image.w = target.w ∧ ind.Image.h = target.h)
    (hw2 : 2 ≤ target.w) (hh2 : 2 ≤ target.h) (harea : 16 ≤ target.w * target.h)
    (hrender : ∀ img poly, (render img poly).w = img.w ∧ (render img poly).h = img.h) :
    ∃ out, evolvePopulation popSize tournamentSize mutationRate target numCPU gomaxprocs
        render pr population = some out ∧
      out.length = popSize ∧
      ∀ i, i + 1 < out.length →
        (out.getD i default).Fitness ≤ (out.getD (i + 1) default).Fitness := by
  obtain ⟨out, heq, hlen', hsorted, _⟩ := evolvePopulation_spec popSize tournamentSize
    mutationRate target numCPU gomaxprocs render pr population hcpu hlen hpos hdims
    hw2 hh2 harea hrender
  refine ⟨out, heq, hlen', ?_⟩
  intro i hi
  rw [List.getD_eq_getElem _ _ (by omega), List.getD_eq_getElem _ _ hi]
  exact List.Sorted.rel_get_of_lt hsorted (by exact Nat.lt_succ_self i)

/-- A 4×4 all-zero target/individual fixture. -/
def img44 : RGBAImage := ⟨4, 4, fun _ => 0⟩

/-- A scored individual on the 4×4 fixture. -/
def ind44 : Individual := ⟨0, img44⟩

/-- Pair-task draws: both tournaments pick index 0; patch crossover with no
swaps; mutation skipped. -/
noncomputable def pr0 : PairRand :=
  ⟨fun _ _ => 0, fun _ _ => 0, patchOnlyCross, skipMut, skipMut⟩

/-- Witness for C1 at a concrete odd-size population of three 4×4
individuals on one CPU. -/
theorem evolvePopulation_size_and_sorted_witness :
    ([ind44, ind44, ind44].length = 3 ∧ (1 : ℕ) ≤ 3 ∧ 2 ≤ img44.w ∧ 16 ≤ img44.w * img44.h) ∧
    ∃ out, evolvePopulation 3 1 0 img44 1 1 (fun img _ => img) (fun _ => pr0)
        [ind44, ind44, ind44] = some out ∧
      out.length = 3 ∧
      ∀ i, i + 1 < out.length →
        (out.getD i default).Fitness ≤ (out.getD (i + 1) default).Fitness :=
  ⟨⟨rfl, by decide, by decide, by decide⟩,
   evolvePopulation_size_and_sorted 3 1 0 img44 1 1 (fun img _ => img) (fun _ => pr0)
     [ind44, ind44, ind44] (by decide) rfl (by decide)
     (by
       intro ind hind
       simp only [List.mem_cons, List.not_mem_nil, or_false, or_self] at hind
       subst hind
       exact ⟨rfl, rfl⟩)
     (by decide) (by decide) (by decide)
     (fun img poly => ⟨rfl, rfl⟩)⟩

end genetic

namespace genetic

/-! ## Adaptive mutation controller (`genetic/mutation.go`), exact-real model -/

/-- `MutationHistory`: a fixed-length circular buffer of average-fitness
samples plus plateau tracking.  (`lastBest` starts at Go's zero value.) -/
structure MutationHistory where
  /-- the circular buffer (length `size`). -/
  history : List ℝ
  /-- the buffer length. -/
  size : ℕ
  /-- next write position. -/
  index : ℕ
  /-- best fitness seen by the previous `Record`. -/
  lastBest : ℝ
  /-- generations without improvement beyond the plateau threshold. -/
  plateauCount : ℕ

/-- `NewMutationHistory`. -/
def NewMutationHistory (size : ℕ) : MutationHistory :=
  ⟨List.replicate size 0, size, 0, 0, 0⟩

/-- `MutationHistory.Record`: store the average fitness at the circular
index and update the plateau counter against the previous best. -/
noncomputable def MutationHistory.Record (mh : MutationHistory)
    (avgFitness bestFitness : ℝ) : MutationHistory :=
  { mh with
    history := mh.history.set mh.index avgFitness
    index := (mh.index + 1) % mh.size
    plateauCount :=
      if 0 < mh.lastBest ∧ mathutil.Abs (bestFitness - mh.lastBest) < 0.01 then
        mh.plateauCount + 1
      else 0
    lastBest := bestFitness }

/-- The circular-buffer position `(index - 1 - i + size) % size` (Go `int`
arithmetic, hence computed in `ℤ`). -/
def circIdx (index size i : ℕ) : ℕ :=
  (((index : ℤ) - 1 - (i : ℤ) + (size : ℤ)) % (size : ℤ)).toNat

/-- The predecessor position `(cur - 1 + size) % size`. -/
def circPrev (cur size : ℕ) : ℕ :=
  (((cur : ℤ) - 1 + (size : ℤ)) % (size : ℤ)).toNat

/-- `MutationHistory.GetImprovementScore`: the average relative change of
consecutive circular-buffer samples, walking backwards from the most
recent entry. -/
noncomputable def MutationHistory.GetImprovementScore (mh : MutationHistory) : ℝ :=
  (∑ i ∈ Finset.range (mh.size - 1),
      (mh.history.getD (circIdx mh.index mh.size i) 0
          - mh.history.getD (circPrev (circIdx mh.index mh.size i) mh.size) 0)
        / mh.history.getD (circPrev (circIdx mh.index mh.size i) mh.size) 0)
    / ((mh.size - 1 : ℕ) : ℝ)

/-- `AdaptiveMutationStrategy` (clamp bounds fixed at construction). -/
structure AdaptiveMutationStrategy where
  /-- the configured base mutation rate. -/
  baseRate : ℝ
  /-- `max(0.01, 0.2*base)`. -/
  minRate : ℝ
  /-- `min(0.4, 5*base)`. -/
  maxRate : ℝ
  /-- the fitness history tracker. -/
  history : MutationHistory

/-- `NewAdaptiveMutationStrategy`. -/
noncomputable def NewAdaptiveMutationStrategy (baseMutationRate : ℝ) :
    AdaptiveMutationStrategy :=
  ⟨baseMutationRate,
   mathutil.Max 0.01 (0.2 * baseMutationRate),
   mathutil.Min 0.4 (5.0 * baseMutationRate),
   NewMutationHistory 10⟩

/-- `computeMutationRate`: the multiplicative combination of stagnation,
diversity, progress, plateau and jitter factors, clamped to
`[minRate, maxRate]`.  `jitter` is the `rand.Float64()` draw. -/
noncomputable def computeMutationRate (ams : AdaptiveMutationStrategy)
    (stagnation diversity progress jitter : ℝ) : ℝ :=
  let stagnationFactor := 1.0 + stagnation * 2.0
  let diversityFactor := 1.0 + (1.0 - diversity) * 0.5
  let progressFactor := 1.0 - progress * 0.7
  let plateauFactor :=
    if ams.history.plateauCount > 5 then
      1.0 + (if ((ams.history.plateauCount : ℝ) / 10.0) > 2.0 then 2.0
             else (ams.history.plateauCount : ℝ) / 10.0)
    else 1.0
  let randomFactor := 1.0 + (jitter * 0.1 - 0.05)
  mathutil.Clamp
    (ams.baseRate * stagnationFactor * diversityFactor * progressFactor *
      plateauFactor * randomFactor)
    ams.minRate ams.maxRate

/-- `AdaptiveMutationStrategy.Update`: record the generation's average and
best fitness, derive stagnation/diversity/progress, and compute the new
rate.  (`population[0]` is read through `headI`; `Run` only calls this on
non-empty populations.)  Returns the rate and the advanced state. -/
noncomputable def AdaptiveMutationStrategy.Update (ams : AdaptiveMutationStrategy)
    (pop : List Individual) (gen maxGen : ℕ) (jitter : ℝ) :
    ℝ × AdaptiveMutationStrategy :=
  let avgFitness := (pop.map Individual.Fitness).sum / (pop.length : ℕ)
  let bestFitness := pop.headI.Fitness
  let history' := ams.history.Record avgFitness bestFitness
  let stagnation :=
    if history'.size ≤ gen then
      (if history'.GetImprovementScore < 0.001 then
        1.0 - history'.GetImprovementScore * 1000
      else 0)
    else 0
  let diversity :=
    if 0 < pop.length ∧ 0 < avgFitness then
      |bestFitness - avgFitness| / bestFitness
    else 0
  let progress := (gen : ℝ) / (maxGen : ℝ)
  (computeMutationRate { ams with history := history' } stagnation diversity progress jitter,
   { ams with history := history' })

end genetic

namespace genetic

/-! ## The run loop (`genetic/algorithm.go`) -/

/-- `GeneticAlgorithm` (sizes post-validation, hence `ℕ`). -/
structure GeneticAlgorithm where
  /-- the immutable target buffer. -/
  TargetRGBA : RGBAImage
  /-- fixed population size. -/
  PopulationSize : ℕ
  /-- configured generation count. -/
  Generations : ℕ
  /-- current mutation rate (reassigned every generation by the controller). -/
  MutationRate : ℝ
  /-- tournament size. -/
  TournamentSize : ℕ
  /-- the current population. -/
  Population : List Individual

/-- A progress record sent on the `recv` channel. -/
structure ImageResult where
  /-- the reporting generation. -/
  Generation : ℕ
  /-- the best image so far. -/
  Img : RGBAImage
  /-- the best fitness so far. -/
  Fitness : ℝ
  /-- the mutation rate of this generation. -/
  MutationRate : ℝ

/-- The random draws of one generation. -/
structure GenRand where
  /-- the controller's jitter draw. -/
  jitter : ℝ
  /-- the pair-task draws, indexed by pair start slot. -/
  pair : ℕ → PairRand

/-- The generation loop of `Run`.  `bestFitness` starts at `math.Inf(1)`,
modelled by `⊤ : WithTop ℝ` (comparisons against it match IEEE `+Inf`).
Panics modelled by `none`: an empty population at `Update`
(`population[0]`), a failed `evolvePopulation`, `gen % recvEvery` with a
zero interval, and sending from a `nil` best individual.  When the loop
ends, Go returns the best individual (a `nil` best—possible only when the
loop never ran—is a failed run here). -/
noncomputable def runLoop (numCPU gomaxprocs : ℕ)
    (render : RGBAImage → Polygon → RGBAImage) (ω : ℕ → GenRand) (recvEvery : ℤ)
    (generations : ℕ) (gen : ℕ) (ga : GeneticAlgorithm)
    (ams : AdaptiveMutationStrategy) (bestFitness : WithTop ℝ)
    (bestIndividual : Option Individual) (sent : List ImageResult) :
    Option (Individual × List ImageResult × GeneticAlgorithm) :=
  if _hg : gen < generations then
    match ga.Population with
    | [] => none
    | _ :: _ =>
      let upd := ams.Update ga.Population gen generations (ω gen).jitter
      match evolvePopulation ga.PopulationSize ga.TournamentSize upd.1 ga.TargetRGBA
          numCPU gomaxprocs render (ω gen).pair ga.Population with
      | none => none
      | some newPopulation =>
        match newPopulation with
        | [] => none
        | currentBest :: restPop =>
          let improved := (currentBest.Fitness : WithTop ℝ) < bestFitness
          let bestFitness' := if improved then (currentBest.Fitness : WithTop ℝ)
            else bestFitness
          let bestIndividual' := if improved then some currentBest.CreateCopy
            else bestIndividual
          let ga' := { ga with Population := currentBest :: restPop,
                               MutationRate := upd.1 }
          if recvEvery = 0 then none
          else if (gen : ℤ).tmod recvEvery = 0 ∨ gen = generations - 1 then
            match bestIndividual' with
            | none => none
            | some b =>
              runLoop numCPU gomaxprocs render ω recvEvery generations (gen + 1) ga'
                upd.2 bestFitness' bestIndividual'
                (sent ++ [⟨gen, b.Image, b.Fitness, upd.1⟩])
          else
            runLoop numCPU gomaxprocs render ω recvEvery generations (gen + 1) ga'
              upd.2 bestFitness' bestIndividual' sent
  else
    bestIndividual.map (fun b => (b, sent, ga))
termination_by generations - gen
decreasing_by all_goals omega

/-- `GeneticAlgorithm.Run`: fresh adaptive controller, best-ever tracking
from `+Inf`, then the generation loop. -/
noncomputable def GeneticAlgorithm.Run (ga : GeneticAlgorithm) (recvEvery : ℤ)
    (numCPU gomaxprocs : ℕ) (render : RGBAImage → Polygon → RGBAImage)
    (ω : ℕ → GenRand) : Option (Individual × List ImageResult × GeneticAlgorithm) :=
  runLoop numCPU gomaxprocs render ω recvEvery ga.Generations 0 ga
    (NewAdaptiveMutationStrategy ga.MutationRate) ⊤ none []

end genetic

namespace genetic

/-- Totality of the generation loop on non-degenerate targets: with
`numCPU ≥ 1`, a non-zero reporting interval, a dimension-preserving
rasteriser, and a well-formed state (population of exactly
`PopulationSize ≥ 1` target-sized individuals; the best-ever individual
already set whenever the loop is past its first generation), the loop
always returns a best individual. -/
lemma runLoop_total (numCPU gomaxprocs : ℕ)
    (render : RGBAImage → Polygon → RGBAImage) (ω : ℕ → GenRand) (recvEvery : ℤ)
    (generations : ℕ) (hcpu : 1 ≤ numCPU) (hre : recvEvery ≠ 0) (hgens : 1 ≤ generations)
    (hrender : ∀ img poly, (render img poly).w = img.w ∧ (render img poly).h = img.h) :
    ∀ (remaining gen : ℕ) (ga : GeneticAlgorithm) (ams : AdaptiveMutationStrategy)
      (bf : WithTop ℝ) (bi : Option Individual) (sent : List ImageResult),
      generations - gen = remaining →
      ga.Population.length = ga.PopulationSize →
      1 ≤ ga.PopulationSize →
      (∀ ind ∈ ga.Population, ind.Image.w = ga.TargetRGBA.w ∧
        ind.Image.h = ga.TargetRGBA.h) →
      2 ≤ ga.TargetRGBA.w → 2 ≤ ga.TargetRGBA.h →
      16 ≤ ga.TargetRGBA.w * ga.TargetRGBA.h →
      (gen = 0 ∨ bi.isSome) → (bi.isSome ∨ bf = ⊤) →
      (runLoop numCPU gomaxprocs render ω recvEvery generations gen ga ams bf bi
        sent).isSome := by
  intro remaining
  induction remaining with
  | zero =>
    intro gen ga ams bf bi sent hrem hlen hpos hdims hw2 hh2 harea hbi hbf
    rw [runLoop, dif_neg (by omega : ¬gen < generations)]
    have hsome : bi.isSome := by
      rcases hbi with rfl | h
      · omega
      · exact h
    obtain ⟨b, rfl⟩ := Option.isSome_iff_exists.mp hsome
    rfl
  | succ remaining ih =>
    intro gen ga ams bf bi sent hrem hlen hpos hdims hw2 hh2 harea hbi hbf
    rw [runLoop, dif_pos (by omega : gen < generations)]
    obtain ⟨p, rest, hpop⟩ : ∃ p rest, ga.Population = p :: rest := by
      cases hp : ga.Population with
      | nil => rw [hp] at hlen; simp at hlen; omega
      | cons p rest => exact ⟨p, rest, rfl⟩
    rw [hpop]
    obtain ⟨newPop, hevo, hnewlen, _, hnewdims⟩ := evolvePopulation_spec
      ga.PopulationSize ga.TournamentSize
      ((ams.Update (p :: rest) gen generations (ω gen).jitter).1)
      ga.TargetRGBA numCPU gomaxprocs render (ω gen).pair (p :: rest)
      hcpu (hpop ▸ hlen) hpos (hpop ▸ hdims) hw2 hh2 harea hrender
    obtain ⟨cb, rp, rfl⟩ : ∃ cb rp, newPop = cb :: rp := by
      cases hnp : newPop with
      | nil => rw [hnp] at hnewlen; simp at hnewlen; omega
      | cons cb rp => exact ⟨cb, rp, rfl⟩
    simp only [hevo]
    have hbi' : (if (cb.Fitness : WithTop ℝ) < bf then some cb.CreateCopy
        else bi).isSome := by
      by_cases himp : (cb.Fitness : WithTop ℝ) < bf
      · rw [if_pos himp]; rfl
      · rw [if_neg himp]
        rcases hbf with h | rfl
        · exact h
        · exact absurd (WithTop.coe_lt_top cb.Fitness) himp
    have hinv : ∀ (bi' : Option Individual), bi'.isSome → ∀ sent',
        (runLoop numCPU gomaxprocs render ω recvEvery generations (gen + 1)
          { ga with Population := cb :: rp,
                    MutationRate := (ams.Update (p :: rest) gen generations
                      (ω gen).jitter).1 }
          (ams.Update (p :: rest) gen generations (ω gen).jitter).2
          (if (cb.Fitness : WithTop ℝ) < bf then (cb.Fitness : WithTop ℝ) else bf)
          bi' sent').isSome := by
      intro bi' hbi'' sent'
      exact ih (gen + 1) _ _ _ _ sent' (by omega) hnewlen hpos hnewdims hw2 hh2 harea
        (Or.inr hbi'') (Or.inl hbi'')
    rw [if_neg hre]
    by_cases hsend : (gen : ℤ).tmod recvEvery = 0 ∨ gen = generations - 1
    · rw [if_pos hsend]
      obtain ⟨b, hb⟩ := Option.isSome_iff_exists.mp hbi'
      rw [hb]
      exact hinv (some b) rfl _
    · rw [if_neg hsend]
      exact hinv _ hbi' _

/-- C7 (amended).  For an algorithm state whose target has both dimensions
at least 2 and area at least 16 (in particular any non-degenerate target),
whose population is well-formed, with at least one generation configured, a
non-zero reporting interval, at least one CPU and a dimension-preserving
rasteriser, the running phase is total: `Run` always returns a best
individual (having driven the loop through all configured generations).
Degenerate targets accepted by construction (e.g. height 1) make `Run`
panic inside `crossoverPoint`—that case is the subject of the
counterexample. -/
theorem Run_total (ga : GeneticAlgorithm) (recvEvery : ℤ) (numCPU gomaxprocs : ℕ)
    (render : RGBAImage → Polygon → RGBAImage) (ω : ℕ → GenRand)
    (hcpu : 1 ≤ numCPU) (hre : recvEvery ≠ 0) (hgens : 1 ≤ ga.Generations)
    (hlen : ga.Population.length = ga.PopulationSize) (hpos : 1 ≤ ga.PopulationSize)
    (hdims : ∀ ind ∈ ga.Population, ind.Image.w = ga.TargetRGBA.w ∧
      ind.Image.h = ga.TargetRGBA.h)
    (hw2 : 2 ≤ ga.TargetRGBA.w) (hh2 : 2 ≤ ga.TargetRGBA.h)
    (harea : 16 ≤ ga.TargetRGBA.w * ga.TargetRGBA.h)
    (hrender : ∀ img poly, (render img poly).w = img.w ∧ (render img poly).h = img.h) :
    ∃ best sent gaFinal,
      ga.Run recvEvery numCPU gomaxprocs render ω = some (best, sent, gaFinal) := by
  have h := runLoop_total numCPU gomaxprocs render ω recvEvery ga.Generations hcpu hre
    hgens hrender (ga.Generations - 0) 0 ga (NewAdaptiveMutationStrategy ga.MutationRate)
    ⊤ none [] rfl hlen hpos hdims hw2 hh2 harea (Or.inl rfl) (Or.inr rfl)
  obtain ⟨⟨best, sent, gaFinal⟩, hb⟩ := Option.isSome_iff_exists.mp h
  exact ⟨best, sent, gaFinal, hb⟩

/-- Witness for C7 (amended) at a concrete input: a 4×4 zero target,
population of one individual, one generation, interval 1. -/
theorem Run_total_witness :
    ((1 : ℤ) ≠ 0 ∧ [ind44].length = 1 ∧ 2 ≤ img44.w ∧ 16 ≤ img44.w * img44.h) ∧
    ∃ best sent gaFinal,
      GeneticAlgorithm.Run ⟨img44, 1, 1, 0.05, 1, [ind44]⟩ 1 1 1 (fun img _ => img)
        (fun _ => ⟨0, fun _ => pr0⟩) = some (best, sent, gaFinal) :=
  ⟨⟨by decide, rfl, by decide, by decide⟩,
   Run_total ⟨img44, 1, 1, 0.05, 1, [ind44]⟩ 1 1 1 (fun img _ => img)
     (fun _ => ⟨0, fun _ => pr0⟩) (by decide) (by decide) (by decide) rfl (by decide)
     (by
       intro ind hind
       simp only [List.mem_cons, List.not_mem_nil, or_false] at hind
       subst hind
       exact ⟨rfl, rfl⟩)
     (by decide) (by decide) (by decide)
     (fun img poly => ⟨rfl, rfl⟩)⟩

end genetic

namespace genetic

/-! ## Construction (`NewIndividual`, `NewGeneticAlgorithm`, `config.Load`) -/

/-- The random draws of one `NewIndividual` call. -/
structure NewIndRand where
  /-- the `RandomRGBA()` background color. -/
  bg : ℕ × ℕ × ℕ × ℕ
  /-- raw `rand.Intn(5)` draw for the polygon count. -/
  numPoly : ℕ
  /-- raw `rand.Intn(4)` draws for the vertex counts. -/
  verts : ℕ → ℕ
  /-- raw `rand.Intn(Dx)` draws. -/
  rx : ℕ → ℕ
  /-- raw `rand.Intn(Dy)` draws. -/
  ry : ℕ → ℕ
  /-- raw `rand.Intn(2*region)` draws per polygon and vertex. -/
  vx : ℕ → ℕ → ℕ
  /-- raw `rand.Intn(2*region)` draws per polygon and vertex. -/
  vy : ℕ → ℕ → ℕ
  /-- the `RandomRGBA()` fill colors. -/
  color : ℕ → ℕ × ℕ × ℕ × ℕ

/-- `image.NewRGBA` followed by `draw.Draw` of a uniform background color
(byte `i` holds the channel `i % 4` of the color inside the allocated
range). -/
def bgFillImage (w h : ℕ) (bg : ℕ × ℕ × ℕ × ℕ) : RGBAImage :=
  ⟨w, h, fun i =>
    if i < 4 * w * h then
      if i % 4 = 0 then bg.1
      else if i % 4 = 1 then bg.2.1
      else if i % 4 = 2 then bg.2.2.1
      else bg.2.2.2
    else 0⟩

/-- One random polygon of `createRandomPolygons`: 3–6 vertices jittered
within `region = (w+h)/8` around a random center, clamped into the image.
Panics (`none`) when a dimension or the region is zero. -/
def newIndividualPolygon (w h region : ℕ) (nr : NewIndRand) (i : ℕ) : Option Polygon :=
  match goIntn w (nr.rx i), goIntn h (nr.ry i) with
  | some rx, some ry =>
    (optionMapList (fun j =>
      match goIntn (2 * region) (nr.vx i j), goIntn (2 * region) (nr.vy i j) with
      | some dx, some dy =>
        some ((mathutil.Clamp ((rx : ℤ) + dx - region) 0 ((w : ℤ) - 1),
               mathutil.Clamp ((ry : ℤ) + dy - region) 0 ((h : ℤ) - 1)))
      | _, _ => none) (List.range (nr.verts i % 4 + 3))).map
      (fun pts => (⟨pts, nr.color i⟩ : Polygon))
  | _, _ => none

/-- `NewIndividual`: background fill, then `rand.Intn(5)+3` random polygons
rendered by the external rasteriser.  Fitness starts at the unevaluated
placeholder. -/
def NewIndividual (width height : ℕ) (render : RGBAImage → Polygon → RGBAImage)
    (nr : NewIndRand) : Option Individual :=
  let region := (width + height) / 8
  match optionMapList (newIndividualPolygon width height region nr)
      (List.range (nr.numPoly % 5 + 3)) with
  | none => none
  | some polys =>
    some ⟨0, polys.foldl render (bgFillImage width height nr.bg)⟩

section
open Classical

/-- `NewGeneticAlgorithm`: eager validation (`nil` target, non-positive
sizes, out-of-range rate, non-positive tournament size — note: no upper
bound on the tournament size), then the initial random population, scored
and sorted.  `none` covers both the Go error return and a construction
panic (the two are distinguished in the doc text of each theorem). -/
noncomputable def NewGeneticAlgorithm (target : Option RGBAImage)
    (popSize generations : ℤ) (mutationRate : ℝ) (tournamentSize : ℤ)
    (gomaxprocs : ℕ) (render : RGBAImage → Polygon → RGBAImage)
    (nrs : ℕ → NewIndRand) : Option GeneticAlgorithm :=
  if target = none ∨ popSize ≤ 0 ∨ generations ≤ 0 ∨ mutationRate < 0 ∨
      mutationRate > 1 ∨ tournamentSize ≤ 0 then
    none
  else
    match target with
    | none => none
    | some targetRGBA =>
      match optionMapList
          (fun i => (NewIndividual targetRGBA.w targetRGBA.h render (nrs i)).map
            (fun ind => ind.CalculateFitness targetRGBA gomaxprocs))
          (List.range popSize.toNat) with
      | none => none
      | some population =>
        some ⟨targetRGBA, popSize.toNat, generations.toNat, mutationRate,
              tournamentSize.toNat, sortByFitness population⟩

end

end genetic

namespace config

/-- The validation chain of `config.Load` (flag parsing abstracted into the
already-parsed values; the two file-system checks into booleans). -/
noncomputable def Load (targetPathEmpty targetFileMissing outDirEmpty : Bool)
    (populationSize generations : ℤ) (mutationRate : ℝ) (tournamentSize : ℤ) :
    Option Unit :=
  if targetPathEmpty then none
  else if targetFileMissing then none
  else if outDirEmpty then none
  else if populationSize ≤ 0 then none
  else if generations ≤ 0 then none
  else if mutationRate < 0 ∨ mutationRate > 1 then none
  else if tournamentSize ≤ 0 then none
  else if tournamentSize > populationSize then none
  else some ()

end config

namespace genetic

/-- C2 (amended).  `NewGeneticAlgorithm` rejects every violation of the
constraints it actually checks — `nil` target, population size ≤ 0,
generation count ≤ 0, mutation rate outside `[0,1]`, tournament size ≤ 0 —
while the upper bound `tournamentSize ≤ populationSize` is enforced by
`config.Load` (for CLI runs), not by `NewGeneticAlgorithm`. -/
theorem NewGeneticAlgorithm_validation (target : Option RGBAImage)
    (popSize generations : ℤ) (mutationRate : ℝ) (tournamentSize : ℤ)
    (gomaxprocs : ℕ) (render : RGBAImage → Polygon → RGBAImage)
    (nrs : ℕ → NewIndRand) (tpe tfm ode : Bool)
    (hviol : target = none ∨ popSize ≤ 0 ∨ generations ≤ 0 ∨ mutationRate < 0 ∨
      mutationRate > 1 ∨ tournamentSize ≤ 0) :
    NewGeneticAlgorithm target popSize generations mutationRate tournamentSize
      gomaxprocs render nrs = none ∧
    (popSize < tournamentSize →
      config.Load tpe tfm ode popSize generations mutationRate tournamentSize = none) := by
  constructor
  · unfold NewGeneticAlgorithm
    rw [if_pos hviol]
  · intro h
    unfold config.Load
    split_ifs with h1 h2 h3 h4 h5 h6 h7 <;> rfl

/-- Witness for C2 (amended) at a concrete violating input (`nil` target,
tournament size 100 > population size 5). -/
theorem NewGeneticAlgorithm_validation_witness :
    NewGeneticAlgorithm none 5 10 (1 / 10) 100 1 (fun img _ => img)
      (fun _ => ⟨(0, 0, 0, 0), 0, fun _ => 0, fun _ => 0, fun _ => 0,
        fun _ _ => 0, fun _ _ => 0, fun _ => (0, 0, 0, 0)⟩) = none ∧
    ((5 : ℤ) < 100 →
      config.Load false false false 5 10 (1 / 10) 100 = none) :=
  NewGeneticAlgorithm_validation none 5 10 (1 / 10) 100 1 (fun img _ => img)
    (fun _ => ⟨(0, 0, 0, 0), 0, fun _ => 0, fun _ => 0, fun _ => 0,
      fun _ _ => 0, fun _ _ => 0, fun _ => (0, 0, 0, 0)⟩) false false false
    (Or.inl rfl)

/-- Draws for `NewIndividual` that are all zero. -/
def nr0 : NewIndRand :=
  ⟨(0, 0, 0, 0), 0, fun _ => 0, fun _ => 0, fun _ => 0, fun _ _ => 0,
   fun _ _ => 0, fun _ => (0, 0, 0, 0)⟩

/-- C2 counterexample.  `NewGeneticAlgorithm` succeeds on a call whose
tournament size (100) exceeds the population size (2): the claimed
constraint `tournamentSize ≤ populationSize` is never checked there, so the
construction does not fail on it. -/
theorem NewGeneticAlgorithm_accepts_oversized_tournament :
    (NewGeneticAlgorithm (some img44) 2 10 (1 / 10) 100 1 (fun img _ => img)
      (fun _ => nr0)).isSome = true ∧ (2 : ℤ) < 100 := by
  constructor
  · unfold NewGeneticAlgorithm
    rw [if_neg (by push_neg; exact ⟨by simp, by norm_num, by norm_num, by norm_num,
      by norm_num, by norm_num⟩)]
    rfl
  · norm_num

end genetic

namespace genetic

/-- A degenerate 7×1 target: accepted by construction
(`(7+1)/8 = 1 > 0`), but height 1 makes `crossoverPoint` panic. -/
def img71 : RGBAImage := ⟨7, 1, fun _ => 0⟩

/-- The scored initial individual the construction run below produces. -/
noncomputable def ind71 : Individual :=
  Individual.CalculateFitness ⟨0, bgFillImage 7 1 (0, 0, 0, 0)⟩ img71 1

/-- Pair draws that select the point-split strategy with a horizontal
orientation. -/
noncomputable def pr71 : PairRand :=
  ⟨fun _ _ => 0, fun _ _ => 0, ⟨0.5, fun _ => 0, 0.3, 0, 0, fun _ _ => 1⟩,
   skipMut, skipMut⟩

/-- Construction succeeds on the 7×1 target. -/
lemma construct71 :
    NewGeneticAlgorithm (some img71) 2 1 (1 / 20) 1 1 (fun img _ => img)
        (fun _ => nr0)
      = some ⟨img71, 2, 1, 1 / 20, 1, sortByFitness [ind71, ind71]⟩ := by
  unfold NewGeneticAlgorithm
  rw [if_neg (by push_neg; exact ⟨by simp, by norm_num, by norm_num, by norm_num,
    by norm_num, by norm_num⟩)]
  rfl

/-- The initial sort leaves the two identical individuals in place. -/
lemma sort71 : sortByFitness [ind71, ind71] = [ind71, ind71] := by
  unfold sortByFitness
  simp [List.insertionSort, List.orderedInsert]

/-- With all draws 0, selection returns the head of a two-element
population. -/
lemma TournamentSelect_pick_head (x y : Individual) :
    TournamentSelect [x, y] 1 (fun _ _ => 0) = some x := by
  unfold TournamentSelect tournRound tournPick
  norm_num [List.range_succ, lt_self_iff_false]

/-- On the degenerate 7×1 population, the single pair task panics inside
`crossoverPoint` (whatever the mutation rate of the generation is). -/
lemma pairTask71_none (r : ℝ) :
    pairTask 1 img71 r 1 (fun img _ => img) pr71 [ind71, ind71] = none := by
  unfold pairTask
  rw [show pr71.sel1 = (fun _ _ => 0) from rfl, show pr71.sel2 = (fun _ _ => 0) from rfl,
    TournamentSelect_pick_head]
  simp only
  unfold pairTaskCore pairChildren Crossover crossoverPoint goIntn
  rw [show pr71.cross = ⟨0.5, fun _ => 0, 0.3, 0, 0, fun _ _ => 1⟩ from rfl]
  norm_num [ind71, Individual.CalculateFitness, bgFillImage]

/-- The whole generation step panics on the 7×1 population. -/
lemma evolve71_none (r : ℝ) :
    evolvePopulation 2 1 r img71 1 1 (fun img _ => img) (fun _ => pr71)
      [ind71, ind71] = none := by
  have hps : pairStarts 2 2 0 = [0] := by
    rw [pairStarts, dif_pos (by norm_num : (0 : ℕ) < 2 - 1 ∧ 0 < 2)]
    rw [pairStarts, dif_neg (by omega : ¬(2 < 2 - 1 ∧ 0 < 2))]
    norm_num [List.range_succ]
  simp only [evolvePopulation]
  norm_num [hps, optionFoldList, pairTask71_none]

/-- C7 counterexample.  A 7×1 target is accepted by construction (all
checked constraints hold and `(7+1)/8 = 1`, so the random-polygon
synthesis succeeds), yet the very first generation of `Run` panics: the
point-split crossover draws `rand.Intn(Dy()-1) = rand.Intn(0)`.  The
running phase is not total for every successfully constructed algorithm. -/
theorem Run_panics_on_degenerate_target :
    ∃ ga71, NewGeneticAlgorithm (some img71) 2 1 (1 / 20) 1 1 (fun img _ => img)
        (fun _ => nr0) = some ga71 ∧
      ga71.Run 1 1 1 (fun img _ => img) (fun _ => ⟨0.5, fun _ => pr71⟩) = none := by
  refine ⟨_, construct71, ?_⟩
  unfold GeneticAlgorithm.Run
  rw [runLoop, dif_pos (by norm_num : (0 : ℕ) < 1)]
  simp only [sort71]
  simp only [evolve71_none]

end genetic

namespace genetic

/-! ## A concrete two-generation run (used to settle the best-tracking claim)

Target: one black pixel.  Initial population: a near pixel (value 10,
fitness 20) and a far pixel (value 100, fitness 200).  Generation 0 draws
the gaussian crossover with zero noise and parents (near, far), producing
the population {20, 110}; generation 1's tournaments draw only index 1, and
the no-swap patch crossover then yields the population {110, 110}.  The
best-ever individual (fitness 20) is no longer in the final population. -/

/-- The 1×1 black target. -/
def T6 : RGBAImage := ⟨1, 1, fun _ => 0⟩

/-- The near individual: pixel bytes 10, fitness `√(4·10²) = 20`. -/
def A6 : Individual := ⟨20, ⟨1, 1, fun _ => 10⟩⟩

/-- The far individual: pixel bytes 100, fitness 200. -/
def B6 : Individual := ⟨200, ⟨1, 1, fun _ => 100⟩⟩

/-- Generation 0 crossover draws: gaussian band (0.8), zero noise. -/
noncomputable def cross6 : CrossRand := ⟨0.8, fun _ => 0, 0, 0, 0, fun _ _ => 1⟩

/-- Generation 0 pair draws: parents (index 0, index 1); mutation skipped. -/
noncomputable def pair60 : PairRand :=
  ⟨fun _ _ => 0, fun _ _ => 1, cross6, skipMut, skipMut⟩

/-- Generation 1 pair draws: both parents from index 1; no-swap patch
crossover; mutation skipped. -/
noncomputable def pair61 : PairRand :=
  ⟨fun _ _ => 1, fun _ _ => 1, patchOnlyCross, skipMut, skipMut⟩

/-- The run's random draws. -/
noncomputable def ω6 : ℕ → GenRand :=
  fun g => if g = 0 then ⟨0.5, fun _ => pair60⟩ else ⟨0.5, fun _ => pair61⟩

/-- The run's algorithm state: population size 2, two generations, base
rate 0.05, tournament size 1. -/
def ga6 : GeneticAlgorithm := ⟨T6, 2, 2, 0.05, 1, [A6, B6]⟩

/-- With all draws 1, selection returns the second of a two-element
population. -/
lemma TournamentSelect_pick_second (x y : Individual) :
    TournamentSelect [x, y] 1 (fun _ _ => 1) = some y := by
  unfold TournamentSelect tournRound tournPick
  norm_num [List.range_succ, lt_self_iff_false]

/-- The batch loop of a 2-individual population on one CPU dispatches one
pair, at slot 0. -/
lemma pairStarts_two : pairStarts 2 2 0 = [0] := by
  rw [pairStarts, dif_pos (by norm_num : (0 : ℕ) < 2 - 1 ∧ 0 < 2)]
  rw [pairStarts, dif_neg (by omega : ¬(2 < 2 - 1 ∧ 0 < 2))]
  norm_num [List.range_succ]

/-- `Mutate` takes the pass-through branch under `skipMut` for any rate
below 1. -/
lemma Mutate_skipMut (r : ℝ) (hr : r < 1)
    (render : RGBAImage → Polygon → RGBAImage) (ind : Individual) :
    Mutate r render skipMut ind = some ind := by
  unfold Mutate
  rw [if_pos (by show skipMut.skip > r; rw [show skipMut.skip = 1 from rfl]; linarith)]

/-- The fitness of any 1×1 image whose bytes are 55, against the black
target, is exactly `√12100 = 110`. -/
lemma fit55 (f : ℝ) (img : RGBAImage) (hw : img.w = 1) (hh : img.h = 1)
    (hp : ∀ i, i < 4 → img.Pix i = 55) :
    calculateFitnessValue ⟨f, img⟩ T6 1 = 110 := by
  unfold calculateFitnessValue calculateRegionFitness
  have hI : Finset.Ico 0 1 = Finset.range 1 := by rw [Finset.range_eq_Ico]
  simp only [T6, Finset.sum_range_one, hI, hw, hh]
  norm_num [pixelDist, RGBAImage.Stride, hw, hp 0 (by norm_num), hp 1 (by norm_num),
    hp 2 (by norm_num), hp 3 (by norm_num)]
  rw [show (12100 : ℝ) = 110 ^ 2 by norm_num, Real.sqrt_sq (by norm_num)]

end genetic

namespace genetic

/-- Gaussian crossover of the concrete parents: with zero noise and parent
bytes 10 and 100, every allocated child byte is `uint8((10+100)/2) = 55`. -/
lemma gaussChild55 (p1 p2 : RGBAImage) (hw : p1.w = 1) (hh : p1.h = 1)
    (h1 : ∀ i, i < 4 → p1.Pix i = 10) (h2 : ∀ i, i < 4 → p2.Pix i = 100) (b : Bool) :
    ∀ i, i < 4 → gaussChildPix b ((0 : ℝ) * 0.1) p1 p2 i = 55 := by
  intro i hi
  unfold gaussChildPix
  rw [if_pos (by simp only [RGBAImage.size, hw, hh]; omega)]
  rw [h1 i hi, h2 i hi]
  cases b <;> norm_num

/-- Patch crossover with every tile draw at 1 copies the own parent's
bytes: on an all-55 1×1 parent every allocated child byte is 55. -/
lemma patchChild55 (own other : RGBAImage) (hw : own.w = 1) (hh : own.h = 1)
    (hp : ∀ i, i < 4 → own.Pix i = 55) :
    ∀ i, i < 4 → patchChildPix (fun _ _ => 1) own other i = 55 := by
  intro i hi
  simp only [patchChildPix]
  rw [if_neg (by rintro ⟨-, hlt⟩; norm_num at hlt),
    if_pos (by simp only [RGBAImage.size, hw, hh]; omega)]
  exact hp i hi

/-- The 0.8 strategy draw of `cross6` lands in the gaussian band. -/
lemma Crossover_cross6 (g : ℕ) (p1 p2 : Individual) :
    Crossover g cross6 p1 p2 =
      some (⟨0, ⟨p1.Image.w, p1.Image.h,
              gaussChildPix true ((0 : ℝ) * 0.1) p1.Image p2.Image⟩⟩,
            ⟨0, ⟨p1.Image.w, p1.Image.h,
              gaussChildPix false ((0 : ℝ) * 0.1) p1.Image p2.Image⟩⟩) := by
  unfold Crossover
  rw [if_neg (by norm_num [cross6]), if_neg (by norm_num [cross6]),
    if_pos (by norm_num [cross6] : cross6.strategy < 0.9)]
  rfl

/-- The 0.95 strategy draw of `patchOnlyCross` lands in the patch band. -/
lemma Crossover_patchOnly (g : ℕ) (p1 p2 : Individual) :
    Crossover g patchOnlyCross p1 p2 =
      some (⟨p1.Fitness, ⟨p1.Image.w, p1.Image.h,
              patchChildPix (fun _ _ => 1) p1.Image p2.Image⟩⟩,
            ⟨p2.Fitness, ⟨p2.Image.w, p2.Image.h,
              patchChildPix (fun _ _ => 1) p2.Image p1.Image⟩⟩) := by
  unfold Crossover
  rw [if_neg (by norm_num [patchOnlyCross]), if_neg (by norm_num [patchOnlyCross]),
    if_neg (by norm_num [patchOnlyCross])]
  rfl

/-- Sorting a fitness-ordered two-element list is the identity. -/
lemma sortByFitness_pair (a b : Individual) (h : a.Fitness ≤ b.Fitness) :
    sortByFitness [a, b] = [a, b] := by
  unfold sortByFitness
  simp [List.insertionSort, List.orderedInsert, h]

/-- Sorting two fitness-110 candidates against the fitness-20 and
fitness-200 parents puts the fitness-20 parent first. -/
lemma sortByFitness_20_110 (x y a b : Individual) (hx : x.Fitness = 110)
    (hy : y.Fitness = 110) (ha : a.Fitness = 20) (hb : b.Fitness = 200) :
    sortByFitness [x, y, a, b] = [a, x, y, b] := by
  unfold sortByFitness
  norm_num [List.insertionSort, List.orderedInsert, hx, hy, ha, hb]

/-- Sorting four equal-fitness candidates is the identity. -/
lemma sortByFitness_all110 (w x y z : Individual) (h1 : w.Fitness = 110)
    (h2 : x.Fitness = 110) (h3 : y.Fitness = 110) (h4 : z.Fitness = 110) :
    sortByFitness [w, x, y, z] = [w, x, y, z] := by
  unfold sortByFitness
  norm_num [List.insertionSort, List.orderedInsert, h1, h2, h3, h4]

/-- The controller's output never exceeds the (construction-fixed)
`maxRate`. -/
lemma Update_rate_le (ams : AdaptiveMutationStrategy) (pop : List Individual)
    (gen maxGen : ℕ) (jitter : ℝ) (h : ams.minRate ≤ ams.maxRate) :
    (ams.Update pop gen maxGen jitter).1 ≤ ams.maxRate := by
  unfold AdaptiveMutationStrategy.Update computeMutationRate
  exact (Clamp_mem _ _ _ h).2

/-- `Update` leaves the clamp bounds unchanged. -/
lemma Update_keeps_rates (ams : AdaptiveMutationStrategy) (pop : List Individual)
    (gen maxGen : ℕ) (jitter : ℝ) :
    (ams.Update pop gen maxGen jitter).2.minRate = ams.minRate ∧
      (ams.Update pop gen maxGen jitter).2.maxRate = ams.maxRate :=
  ⟨rfl, rfl⟩

/-- The base rate 0.05 fixes the clamp interval `[0.01, 0.25]`. -/
lemma ams6_rates : (NewAdaptiveMutationStrategy (0.05 : ℝ)).minRate = 0.01 ∧
    (NewAdaptiveMutationStrategy (0.05 : ℝ)).maxRate = 0.25 := by
  constructor <;> norm_num [NewAdaptiveMutationStrategy, mathutil.Max, mathutil.Min]

end genetic

namespace genetic

/-- Generation 0's first gaussian child (before scoring). -/
noncomputable def c61 : Individual :=
  ⟨0, ⟨A6.Image.w, A6.Image.h, gaussChildPix true ((0 : ℝ) * 0.1) A6.Image B6.Image⟩⟩

/-- Generation 0's second gaussian child (before scoring). -/
noncomputable def c62 : Individual :=
  ⟨0, ⟨A6.Image.w, A6.Image.h, gaussChildPix false ((0 : ℝ) * 0.1) A6.Image B6.Image⟩⟩

/-- Generation 0's first scored child. -/
noncomputable def d61 : Individual := c61.CalculateFitness T6 1

/-- Generation 0's second scored child. -/
noncomputable def d62 : Individual := c62.CalculateFitness T6 1

/-- Both scored children of generation 0 have fitness `√(4·55²) = 110`. -/
lemma d61_fit : d61.Fitness = 110 :=
  fit55 0 _ rfl rfl (gaussChild55 A6.Image B6.Image rfl rfl
    (fun _ _ => rfl) (fun _ _ => rfl) true)

/-- The second scored child's fitness. -/
lemma d62_fit : d62.Fitness = 110 :=
  fit55 0 _ rfl rfl (gaussChild55 A6.Image B6.Image rfl rfl
    (fun _ _ => rfl) (fun _ _ => rfl) false)

/-- The allocated bytes of the first scored child are all 55. -/
lemma d61_pix : ∀ i, i < 4 → d61.Image.Pix i = 55 :=
  gaussChild55 A6.Image B6.Image rfl rfl (fun _ _ => rfl) (fun _ _ => rfl) true

/-- The deep copy of the first scored child keeps the 55 bytes. -/
lemma d61c_pix : ∀ i, i < 4 → d61.CreateCopy.Image.Pix i = 55 := by
  intro i hi
  simp only [Individual.CreateCopy]
  rw [if_pos (by
    simp only [RGBAImage.size]
    rw [show d61.Image.w = 1 from rfl, show d61.Image.h = 1 from rfl]
    omega)]
  exact d61_pix i hi

/-- Generation 0's crossover on the concrete parents. -/
lemma hc60 : Crossover 1 cross6 A6 B6 = some (c61, c62) :=
  Crossover_cross6 1 A6 B6

/-- Generation 0's pair task: parents `(A6, B6)` are selected, the
zero-noise gaussian crossover produces two all-55 children scoring 110,
mutation is skipped, and the survivor sort keeps `A6` (fitness 20) and the
first child (fitness 110). -/
lemma pairTask60 (r : ℝ) (hr : r < 1) :
    pairTask 1 T6 r 1 (fun img _ => img) pair60 [A6, B6]
      = some (A6.CreateCopy, d61.CreateCopy) := by
  have hpc : pairChildren T6 r 1 (fun img _ => img) cross6 skipMut skipMut A6 B6
      = some (d61, d62) := by
    unfold pairChildren
    rw [hc60]
    simp only [Mutate_skipMut r hr]
    rfl
  unfold pairTask
  rw [show pair60.sel1 = (fun _ _ => 0) from rfl,
    show pair60.sel2 = (fun _ _ => 1) from rfl,
    TournamentSelect_pick_head, TournamentSelect_pick_second]
  simp only
  rw [show pair60.cross = cross6 from rfl, show pair60.mut1 = skipMut from rfl,
    show pair60.mut2 = skipMut from rfl]
  unfold pairTaskCore
  rw [hpc]
  simp only [sortByFitness_20_110 d61 d62 A6 B6 d61_fit d62_fit rfl rfl]
  rfl

end genetic

namespace genetic

/-- Generation 1's pair task on any population `[o1, o2]` whose second
member has fitness 110 and an all-55 1×1 image: both tournaments draw
index 1, the no-swap patch crossover clones `o2` twice, mutation is
skipped, both clones again score 110, and both survivors have fitness
110. -/
lemma pairTask61 (r : ℝ) (hr : r < 1) (o1 o2 : Individual) (hf : o2.Fitness = 110)
    (hw : o2.Image.w = 1) (hh : o2.Image.h = 1)
    (hp : ∀ i, i < 4 → o2.Image.Pix i = 55) :
    ∃ q1 q2, pairTask 1 T6 r 1 (fun img _ => img) pair61 [o1, o2] = some (q1, q2) ∧
      q1.Fitness = 110 ∧ q2.Fitness = 110 := by
  have hfit : (Individual.CalculateFitness ⟨o2.Fitness, ⟨o2.Image.w, o2.Image.h,
      patchChildPix (fun _ _ => (1 : ℝ)) o2.Image o2.Image⟩⟩ T6 1).Fitness = 110 := by
    show calculateFitnessValue _ T6 1 = 110
    exact fit55 _ _ hw hh (patchChild55 o2.Image o2.Image hw hh hp)
  refine ⟨(Individual.CalculateFitness ⟨o2.Fitness, ⟨o2.Image.w, o2.Image.h,
      patchChildPix (fun _ _ => (1 : ℝ)) o2.Image o2.Image⟩⟩ T6 1).CreateCopy,
    (Individual.CalculateFitness ⟨o2.Fitness, ⟨o2.Image.w, o2.Image.h,
      patchChildPix (fun _ _ => (1 : ℝ)) o2.Image o2.Image⟩⟩ T6 1).CreateCopy,
    ?_, hfit, hfit⟩
  unfold pairTask
  rw [show pair61.sel1 = (fun _ _ => 1) from rfl,
    show pair61.sel2 = (fun _ _ => 1) from rfl, TournamentSelect_pick_second]
  simp only
  rw [show pair61.cross = patchOnlyCross from rfl, show pair61.mut1 = skipMut from rfl,
    show pair61.mut2 = skipMut from rfl]
  unfold pairTaskCore pairChildren
  rw [Crossover_patchOnly 1 o2 o2]
  simp only [Mutate_skipMut r hr]
  rw [sortByFitness_all110 _ _ _ _ hfit hfit hf hf]
  rfl

end genetic

namespace genetic

/-- Generation 0's full `evolvePopulation` step on `[A6, B6]` (one CPU,
any mutation rate below 1): the new sorted population is
`[A6.CreateCopy, d61.CreateCopy]` — fitness 20 and 110. -/
lemma evolve60 (r : ℝ) (hr : r < 1) :
    evolvePopulation 2 1 r T6 1 1 (fun img _ => img) (fun _ => pair60) [A6, B6]
      = some [A6.CreateCopy, d61.CreateCopy] := by
  have hsort : sortByFitness [A6.CreateCopy, d61.CreateCopy]
      = [A6.CreateCopy, d61.CreateCopy] := by
    refine sortByFitness_pair _ _ ?_
    rw [show A6.CreateCopy.Fitness = (20 : ℝ) from rfl,
      show d61.CreateCopy.Fitness = d61.Fitness from rfl, d61_fit]
    norm_num
  simp only [evolvePopulation]
  norm_num [pairStarts_two, optionFoldList, pairTask60 r hr, optionMapList,
    List.range_succ, hsort]

/-- Generation 1's full `evolvePopulation` step on `[o1, o2]` with the
second member at fitness 110 and an all-55 1×1 image: the new population
consists of two fitness-110 individuals. -/
lemma evolve61 (r : ℝ) (hr : r < 1) (o1 o2 : Individual) (hf : o2.Fitness = 110)
    (hw : o2.Image.w = 1) (hh : o2.Image.h = 1)
    (hp : ∀ i, i < 4 → o2.Image.Pix i = 55) :
    ∃ q1 q2, evolvePopulation 2 1 r T6 1 1 (fun img _ => img) (fun _ => pair61) [o1, o2]
        = some [q1, q2] ∧ q1.Fitness = 110 ∧ q2.Fitness = 110 := by
  obtain ⟨q1, q2, hpt, h1, h2⟩ := pairTask61 r hr o1 o2 hf hw hh hp
  refine ⟨q1, q2, ?_, h1, h2⟩
  have hsort : sortByFitness [q1, q2] = [q1, q2] := by
    refine sortByFitness_pair _ _ ?_
    rw [h1, h2]
  simp only [evolvePopulation]
  norm_num [pairStarts_two, optionFoldList, hpt, optionMapList, List.range_succ, hsort]

end genetic

namespace genetic

/-- C6.  A complete two-generation counterexample run: `Run` returns the
best-ever individual — a copy of the fitness-20 head of generation 0's
population — while the final sorted population consists of two fitness-110
individuals, because generation 1 bred the fitness-20 individual out.  The
returned fitness therefore does not equal `population[0].Fitness` of the
final population when the loop terminates, refuting the best-tracking
invariant (`Run` tracks the best-ever copy, not the final head). -/
theorem Run_best_differs_from_final_population :
    ∃ best sent gaFinal,
      ga6.Run 1 1 1 (fun img _ => img) ω6 = some (best, sent, gaFinal) ∧
      best.Fitness = 20 ∧ gaFinal.Population.headI.Fitness = 110 ∧
      best.Fitness ≠ gaFinal.Population.headI.Fitness := by
  have hmin0 : (NewAdaptiveMutationStrategy (0.05 : ℝ)).minRate ≤
      (NewAdaptiveMutationStrategy (0.05 : ℝ)).maxRate := by
    rw [ams6_rates.1, ams6_rates.2]; norm_num
  have hr0 : ((NewAdaptiveMutationStrategy (0.05 : ℝ)).Update [A6, B6] 0 2
      (ω6 0).jitter).1 < 1 :=
    lt_of_le_of_lt (Update_rate_le _ _ _ _ _ hmin0) (by rw [ams6_rates.2]; norm_num)
  have hev0 := evolve60 _ hr0
  have hkeep := Update_keeps_rates (NewAdaptiveMutationStrategy (0.05 : ℝ)) [A6, B6] 0 2
    (ω6 0).jitter
  have hmin1 : (((NewAdaptiveMutationStrategy (0.05 : ℝ)).Update [A6, B6] 0 2
      (ω6 0).jitter).2).minRate ≤
      (((NewAdaptiveMutationStrategy (0.05 : ℝ)).Update [A6, B6] 0 2
        (ω6 0).jitter).2).maxRate := by
    rw [hkeep.1, hkeep.2]; exact hmin0
  have hr1 : ((((NewAdaptiveMutationStrategy (0.05 : ℝ)).Update [A6, B6] 0 2
      (ω6 0).jitter).2).Update [A6.CreateCopy, d61.CreateCopy] 1 2
      (ω6 1).jitter).1 < 1 :=
    lt_of_le_of_lt (Update_rate_le _ _ _ _ _ hmin1)
      (by rw [hkeep.2, ams6_rates.2]; norm_num)
  obtain ⟨q1, q2, hq, hq1, hq2⟩ :=
    evolve61 _ hr1 A6.CreateCopy d61.CreateCopy d61_fit rfl rfl d61c_pix
  have h1ne0 : ¬(1 : ℤ) = 0 := by norm_num
  have himp : (↑(A6.CreateCopy.Fitness) : WithTop ℝ) < ⊤ := by simp
  have hni : ¬((↑(110 : ℝ) : WithTop ℝ) < ↑(20 : ℝ)) := by
    rw [WithTop.coe_lt_coe]; norm_num
  have hrun : ga6.Run 1 1 1 (fun img _ => img) ω6
      = some (A6.CreateCopy.CreateCopy,
          [⟨0, A6.CreateCopy.CreateCopy.Image, A6.CreateCopy.CreateCopy.Fitness,
             ((NewAdaptiveMutationStrategy (0.05 : ℝ)).Update [A6, B6] 0 2 (ω6 0).jitter).1⟩,
           ⟨1, A6.CreateCopy.CreateCopy.Image, A6.CreateCopy.CreateCopy.Fitness,
             (((NewAdaptiveMutationStrategy (0.05 : ℝ)).Update [A6, B6] 0 2
                 (ω6 0).jitter).2.Update [A6.CreateCopy, d61.CreateCopy] 1 2
               (ω6 1).jitter).1⟩],
          ⟨T6, 2, 2,
            (((NewAdaptiveMutationStrategy (0.05 : ℝ)).Update [A6, B6] 0 2
                (ω6 0).jitter).2.Update [A6.CreateCopy, d61.CreateCopy] 1 2
              (ω6 1).jitter).1, 1, [q1, q2]⟩) := by
    unfold GeneticAlgorithm.Run
    simp only [ga6]
    rw [runLoop, dif_pos (by norm_num : (0 : ℕ) < 2)]
    rw [show (ω6 0).pair = (fun _ => pair60) from rfl]
    simp only [hev0]
    simp only [if_pos himp]
    rw [if_neg h1ne0,
      if_pos (Or.inl (by decide) : ((0 : ℕ) : ℤ).tmod 1 = 0 ∨ (0 : ℕ) = 2 - 1)]
    simp only [Nat.reduceAdd]
    rw [runLoop, dif_pos (by norm_num : (1 : ℕ) < 2)]
    rw [show (ω6 1).pair = (fun _ => pair61) from rfl]
    simp only [hq]
    rw [hq1, show A6.CreateCopy.Fitness = (20 : ℝ) from rfl]
    simp only [if_neg hni]
    rw [if_neg h1ne0,
      if_pos (Or.inr trivial : ((1 : ℕ) : ℤ).tmod 1 = 0 ∨ True)]
    simp only [Nat.reduceAdd]
    rw [runLoop, dif_neg (by norm_num : ¬(2 : ℕ) < 2)]
    rfl
  refine ⟨_, _, _, hrun, rfl, hq1, ?_⟩
  show A6.CreateCopy.CreateCopy.Fitness ≠ q1.Fitness
  rw [hq1, show A6.CreateCopy.CreateCopy.Fitness = (20 : ℝ) from rfl]
  norm_num

end genetic

namespace genetic

/-- The controller's output always lies in the clamp interval whenever that
interval is non-empty. -/
lemma Update_rate_mem (ams : AdaptiveMutationStrategy) (pop : List Individual)
    (gen maxGen : ℕ) (jitter : ℝ) (h : ams.minRate ≤ ams.maxRate) :
    ams.minRate ≤ (ams.Update pop gen maxGen jitter).1 ∧
      (ams.Update pop gen maxGen jitter).1 ≤ ams.maxRate := by
  unfold AdaptiveMutationStrategy.Update computeMutationRate
  exact Clamp_mem _ _ _ h

/-- C5 counterexample.  At base rate 0 — inside the claimed domain `[0,1]`
— the clamp interval is empty: `minRate = max(0.01, 0) = 0.01` exceeds
`maxRate = min(0.4, 0) = 0`, and `Update` returns `Clamp(0, 0.01, 0) =
0.01`, which is strictly greater than `maxRate`.  The controller's output
is not within `[minRate, maxRate]` for every base rate in `[0,1]`. -/
theorem Update_escapes_clamp_interval :
    (NewAdaptiveMutationStrategy (0 : ℝ)).minRate = 0.01 ∧
    (NewAdaptiveMutationStrategy (0 : ℝ)).maxRate = 0 ∧
    ((NewAdaptiveMutationStrategy (0 : ℝ)).Update [A6] 0 1 0).1 = 0.01 ∧
    ¬(((NewAdaptiveMutationStrategy (0 : ℝ)).Update [A6] 0 1 0).1 ≤
        (NewAdaptiveMutationStrategy (0 : ℝ)).maxRate) := by
  have h1 : (NewAdaptiveMutationStrategy (0 : ℝ)).minRate = 0.01 := by
    norm_num [NewAdaptiveMutationStrategy, mathutil.Max]
  have h2 : (NewAdaptiveMutationStrategy (0 : ℝ)).maxRate = 0 := by
    norm_num [NewAdaptiveMutationStrategy, mathutil.Min]
  have h3 : ((NewAdaptiveMutationStrategy (0 : ℝ)).Update [A6] 0 1 0).1 = 0.01 := by
    norm_num [AdaptiveMutationStrategy.Update, computeMutationRate,
      NewAdaptiveMutationStrategy, NewMutationHistory, MutationHistory.Record,
      mathutil.Max, mathutil.Min, mathutil.Clamp, mathutil.Abs, A6, List.headI]
  exact ⟨h1, h2, h3, by rw [h2, h3]; norm_num⟩

end genetic

namespace genetic

/-- C5 (amended).  For every base mutation rate `b` with `0.002 ≤ b ≤ 1`
— exactly the rates for which the clamp interval
`[max(0.01, 0.2·b), min(0.4, 5·b)]` is non-empty — and every population,
generation pair and jitter draw, the adaptive controller's `Update`
returns a value within `[minRate, maxRate]`.  (For `b < 0.002` the
interval is empty and the clamp escapes it; see the counterexample.) -/
theorem Update_clamped_for_viable_base (b : ℝ) (hb0 : 0.002 ≤ b) (hb1 : b ≤ 1)
    (pop : List Individual) (gen maxGen : ℕ) (jitter : ℝ) :
    (NewAdaptiveMutationStrategy b).minRate = mathutil.Max 0.01 (0.2 * b) ∧
    (NewAdaptiveMutationStrategy b).maxRate = mathutil.Min 0.4 (5.0 * b) ∧
    (NewAdaptiveMutationStrategy b).minRate ≤
      ((NewAdaptiveMutationStrategy b).Update pop gen maxGen jitter).1 ∧
    ((NewAdaptiveMutationStrategy b).Update pop gen maxGen jitter).1 ≤
      (NewAdaptiveMutationStrategy b).maxRate := by
  have hmm : (NewAdaptiveMutationStrategy b).minRate ≤
      (NewAdaptiveMutationStrategy b).maxRate := by
    show mathutil.Max 0.01 (0.2 * b) ≤ mathutil.Min 0.4 (5.0 * b)
    unfold mathutil.Max mathutil.Min
    split_ifs <;> linarith
  obtain ⟨hlo, hhi⟩ := Update_rate_mem _ pop gen maxGen jitter hmm
  exact ⟨rfl, rfl, hlo, hhi⟩

/-- The amended C5 theorem at the concrete base rate 0.05. -/
theorem Update_clamped_for_viable_base_witness :
    ((0.002 : ℝ) ≤ 0.05 ∧ (0.05 : ℝ) ≤ 1) ∧
    ((NewAdaptiveMutationStrategy (0.05 : ℝ)).minRate = mathutil.Max 0.01 (0.2 * 0.05) ∧
     (NewAdaptiveMutationStrategy (0.05 : ℝ)).maxRate = mathutil.Min 0.4 (5.0 * 0.05) ∧
     (NewAdaptiveMutationStrategy (0.05 : ℝ)).minRate ≤
       ((NewAdaptiveMutationStrategy (0.05 : ℝ)).Update [A6] 0 1 0).1 ∧
     ((NewAdaptiveMutationStrategy (0.05 : ℝ)).Update [A6] 0 1 0).1 ≤
       (NewAdaptiveMutationStrategy (0.05 : ℝ)).maxRate) :=
  ⟨⟨by norm_num, by norm_num⟩,
   Update_clamped_for_viable_base 0.05 (by norm_num) (by norm_num) [A6] 0 1 0⟩

end genetic
